import Mathlib

/-!
Verification of the optical-design chat backend (`app.py`) against its
natural-language specification.

The development shallowly embeds the Python source:

* Python strings are modelled as `List Char` (wrapped into `String` at the
  API boundary); `str.strip`, `str.find` and slicing are modelled by
  `pyStrip`, `pyFind` / `pyFindFrom` and `pySlice` with Python semantics
  (`find` returns `-1` when absent, a negative slice end counts from the
  end of the string).
* JSON values (`json.loads` / `json.dumps`) are modelled by the inductive
  type `Json`.  Numbers are exact decimals `m * 10 ^ (-e)` (`Json.num m e`);
  IEEE-754 rounding of Python floats is not modelled, and the non-standard
  `NaN` / `Infinity` literals that Python additionally accepts are outside
  the model.  Objects are ordered key/value lists; a Python `dict` never
  holds a duplicate key, so lists with duplicate keys are values of the
  model only and correspond to no Python object.
* `json.dumps` with default arguments (`ensure_ascii=True`, separators
  `", "` and `": "`) is `jdumpL`; `json.dumps(..., indent=2)` as used for
  the context blocks is `jdumpIndentL`.  `json.loads` is `loadsL`, a
  fuel-indexed recursive-descent parser for strict JSON; the fuel
  `2 * length + 4` exceeds the number of recursive calls any input can
  cause (each parser step consumes at least one character per two calls),
  so the fuel never cuts off an accepted input.
* The pydantic models (`Source`, `Surface`, `Lens`, `OpticalDesign`, ...)
  are embedded as structures with validators returning `Option`; `none`
  stands for pydantic's `ValidationError` (the spec's `SchemaError`).
  Lax-mode coercions from strings to numbers are not modelled: validator
  numeric fields accept exactly JSON numbers.
* The prompt-store file is the state type `PromptFile` (absent, present
  with content, or failing to read); the endpoint bodies become pure
  functions of that state.
-/

/-! ## Python string primitives -/

/-- Whitespace for Python `str.strip()` (the ASCII fragment). -/
def pyWs (c : Char) : Bool :=
  c = ' ' || c = '\t' || c = '\n' || c = '\r' || c = '\x0b' || c = '\x0c'

/-- Python `str.strip()` on a character list. -/
def pyStrip (cs : List Char) : List Char :=
  ((cs.dropWhile pyWs).reverse.dropWhile pyWs).reverse

/-- Python `str.strip()`. -/
def pyStripStr (s : String) : String :=
  String.mk (pyStrip s.data)

/-- Index of the first occurrence of `needle` at or after position `i`,
scanning `hay`; `none` when absent.  Helper for `pyFind`. -/
def subFindAux (needle : List Char) : List Char → Nat → Option Nat
  | hay, i =>
    if needle.isPrefixOf hay then some i
    else
      match hay with
      | [] => none
      | _ :: t => subFindAux needle t (i + 1)

/-- Python `hay.find(needle)`: index of the first occurrence, `-1` if absent. -/
def pyFind (hay needle : List Char) : Int :=
  match subFindAux needle hay 0 with
  | some i => (i : Int)
  | none => -1

/-- Python `hay.find(needle, start)` for a non-negative `start`. -/
def pyFindFrom (hay needle : List Char) (start : Nat) : Int :=
  match subFindAux needle (hay.drop start) 0 with
  | some i => ((start + i : Nat) : Int)
  | none => -1

/-- Python slice `s[a:b]` for integer bounds (negative indices count from
the end, as in Python; the code under study produces `b = -1` when a
closing fence is missing). -/
def pySlice (cs : List Char) (a b : Int) : List Char :=
  let n : Int := cs.length
  let norm : Int → Nat := fun x => (if x < 0 then max 0 (n + x) else min x n).toNat
  (cs.take (norm b)).drop (norm a)

/-- Python `in` for strings: substring containment. -/
def pyContains (hay needle : List Char) : Bool :=
  decide (pyFind hay needle ≥ 0)

/-! ## JSON values -/

/-- A JSON number as the exact decimal `m / 10 ^ e`.  Python parses a
numeric literal without fraction or exponent to `int` and one with them to
`float`; the model conflates the two (their values are `==`-equal in
Python) and represents both exactly. -/
structure JNum where
  m : Int
  e : Nat
deriving DecidableEq, Repr

/-- JSON values, as produced by `json.loads` and consumed by `json.dumps`
in `app.py`.  Objects are insertion-ordered key/value lists. -/
inductive Json where
  | null : Json
  | bool (b : Bool) : Json
  | num (m : Int) (e : Nat) : Json
  | str (s : String) : Json
  | arr (xs : List Json) : Json
  | obj (kvs : List (String × Json)) : Json
deriving Repr

mutual

/-- Boolean equality on JSON values (deriving cannot handle the nested
inductive, so the instance is built by hand). -/
def jsonBeq : Json → Json → Bool
  | .null, .null => true
  | .bool a, .bool b => a == b
  | .num m e, .num m' e' => m == m' && e == e'
  | .str s, .str s' => s == s'
  | .arr xs, .arr ys => jsonBeqList xs ys
  | .obj kvs, .obj kvs' => jsonBeqMembers kvs kvs'
  | _, _ => false
termination_by structural j => j

/-- Elementwise `jsonBeq` on lists. -/
def jsonBeqList : List Json → List Json → Bool
  | [], [] => true
  | x :: t, y :: s => jsonBeq x y && jsonBeqList t s
  | _, _ => false
termination_by structural l => l

/-- Elementwise `jsonBeq` on key/value lists. -/
def jsonBeqMembers : List (String × Json) → List (String × Json) → Bool
  | [], [] => true
  | (k, v) :: t, (k', v') :: s => k == k' && jsonBeq v v' && jsonBeqMembers t s
  | _, _ => false
termination_by structural l => l

end

mutual

theorem jsonBeq_iff : ∀ a b : Json, jsonBeq a b = true ↔ a = b
  | .null, b => by cases b <;> simp [jsonBeq]
  | .bool a, b => by cases b <;> simp [jsonBeq]
  | .num m e, b => by cases b <;> simp [jsonBeq]
  | .str s, b => by cases b <;> simp [jsonBeq]
  | .arr xs, b => by
      cases b <;> simp [jsonBeq]
      rw [jsonBeqList_iff]
  | .obj kvs, b => by
      cases b <;> simp [jsonBeq]
      rw [jsonBeqMembers_iff]
termination_by structural a => a

theorem jsonBeqList_iff : ∀ xs ys : List Json, jsonBeqList xs ys = true ↔ xs = ys
  | [], ys => by cases ys <;> simp [jsonBeqList]
  | x :: t, ys => by
      cases ys with
      | nil => simp [jsonBeqList]
      | cons y s => simp [jsonBeqList, jsonBeq_iff x y, jsonBeqList_iff t s]
termination_by structural l => l

theorem jsonBeqMembers_iff :
    ∀ xs ys : List (String × Json), jsonBeqMembers xs ys = true ↔ xs = ys
  | [], ys => by cases ys <;> simp [jsonBeqMembers]
  | (k, v) :: t, ys => by
      cases ys with
      | nil => simp [jsonBeqMembers]
      | cons y s =>
          obtain ⟨k', v'⟩ := y
          simp [jsonBeqMembers, jsonBeq_iff v v', jsonBeqMembers_iff t s, and_assoc]
termination_by structural l => l

end

instance : DecidableEq Json := fun a b => decidable_of_iff _ (jsonBeq_iff a b)

/-! ## `json.dumps` (default arguments) -/

/-- Decimal digit character for `d < 10`. -/
def digitToChar (d : Nat) : Char := Char.ofNat (48 + d)

/-- Big-endian decimal digit characters of a positive number, by repeated
division; the fuel (any bound on the digit count) keeps the recursion
structural so that terms reduce in the kernel. -/
def natNonzeroDigits : Nat → Nat → List Char
  | 0, _ => []
  | fuel + 1, n => if n = 0 then [] else natNonzeroDigits fuel (n / 10) ++ [digitToChar (n % 10)]

/-- Big-endian decimal digits of a natural number (`"0"` for zero), as
Python `repr` prints it. -/
def natDigits (n : Nat) : List Char :=
  if n = 0 then ['0'] else natNonzeroDigits (n + 1) n

theorem natNonzeroDigits_eq_digits :
    ∀ fuel n, n ≤ fuel → natNonzeroDigits fuel n = ((Nat.digits 10 n).map digitToChar).reverse := by
  intro fuel
  induction fuel with
  | zero => intro n hn; interval_cases n; simp [natNonzeroDigits]
  | succ f ih =>
      intro n hn
      by_cases h0 : n = 0
      · subst h0; simp [natNonzeroDigits]
      · have hlt := Nat.div_lt_self (Nat.pos_of_ne_zero h0) (by norm_num : 1 < 10)
        rw [natNonzeroDigits, if_neg h0, ih (n / 10) (by omega),
          Nat.digits_def' (by norm_num : 1 < 10) (Nat.pos_of_ne_zero h0)]
        simp

/-- Characterization of `natDigits` through Mathlib's `Nat.digits`. -/
theorem natDigits_eq (n : Nat) :
    natDigits n = if n = 0 then ['0'] else ((Nat.digits 10 n).map digitToChar).reverse := by
  unfold natDigits
  split
  · rfl
  · exact natNonzeroDigits_eq_digits (n + 1) n (Nat.le_succ n)

/-- Digits of `a` left-padded with zeros to be longer than `e`, so a
decimal point can be inserted `e` places from the right. -/
def numPaddedDigits (a e : Nat) : List Char :=
  let s := natDigits a
  if s.length ≤ e then List.replicate (e + 1 - s.length) '0' ++ s else s

/-- Unsigned part of a serialized JSON number: the plain digits when
`e = 0`, else the exact decimal with `e` fractional digits. -/
def numCore (a e : Nat) : List Char :=
  if e = 0 then natDigits a
  else
    let s := numPaddedDigits a e
    s.take (s.length - e) ++ '.' :: s.drop (s.length - e)

/-- Serialization of a JSON number: Python `repr` of the `int` when
`e = 0`, else the exact decimal with `e` fractional digits. -/
def numRepr (m : Int) (e : Nat) : List Char :=
  (if m < 0 then ['-'] else []) ++ numCore m.natAbs e

/-- Lowercase hexadecimal digit for `d < 16`, as `json.dumps` emits in
`\uXXXX` escapes. -/
def hexChar (d : Nat) : Char :=
  if d < 10 then Char.ofNat (48 + d) else Char.ofNat (87 + d)

/-- Four lowercase hex digits of `n < 0x10000`. -/
def toHex4 (n : Nat) : List Char :=
  [hexChar (n / 4096 % 16), hexChar (n / 256 % 16), hexChar (n / 16 % 16), hexChar (n % 16)]

/-- Escaping of one character by `json.dumps` with the default
`ensure_ascii=True`: backslash, quote and the five short control escapes,
raw printable ASCII, `\uXXXX` for other BMP characters and surrogate
pairs for astral ones. -/
def escapeChar (c : Char) : List Char :=
  if c = '"' then ['\\', '"']
  else if c = '\\' then ['\\', '\\']
  else if c = '\x08' then ['\\', 'b']
  else if c = '\x0c' then ['\\', 'f']
  else if c = '\n' then ['\\', 'n']
  else if c = '\r' then ['\\', 'r']
  else if c = '\t' then ['\\', 't']
  else if 0x20 ≤ c.toNat ∧ c.toNat ≤ 0x7e then [c]
  else if c.toNat < 0x10000 then '\\' :: 'u' :: toHex4 c.toNat
  else
    let v := c.toNat - 0x10000
    '\\' :: 'u' :: toHex4 (0xd800 + v / 1024) ++ '\\' :: 'u' :: toHex4 (0xdc00 + v % 1024)

/-- Serialized JSON string: quoted, characters escaped. -/
def strRepr (s : String) : List Char :=
  '"' :: s.data.flatMap escapeChar ++ ['"']

/-- Interleave a separator between serialized items. -/
def joinSep (sep : List Char) : List (List Char) → List Char
  | [] => []
  | [x] => x
  | x :: y :: t => x ++ sep ++ joinSep sep (y :: t)

mutual

/-- Model of `json.dumps(x)` with default arguments (compact, separators
`", "` and `": "`), on character lists. -/
def jdumpL : Json → List Char
  | .null => "null".data
  | .bool true => "true".data
  | .bool false => "false".data
  | .num m e => numRepr m e
  | .str s => strRepr s
  | .arr xs => '[' :: jdumpItems xs ++ [']']
  | .obj kvs => Char.ofNat 123 :: jdumpMembers kvs ++ [Char.ofNat 125]
termination_by structural j => j

/-- Comma-space separated serialized array items. -/
def jdumpItems : List Json → List Char
  | [] => []
  | [x] => jdumpL x
  | x :: y :: t => jdumpL x ++ ',' :: ' ' :: jdumpItems (y :: t)
termination_by structural l => l

/-- Comma-space separated serialized object members (`"key": value`). -/
def jdumpMembers : List (String × Json) → List Char
  | [] => []
  | [(k, v)] => strRepr k ++ ':' :: ' ' :: jdumpL v
  | (k, v) :: y :: t => strRepr k ++ ':' :: ' ' :: jdumpL v ++ ',' :: ' ' :: jdumpMembers (y :: t)
termination_by structural l => l

end

/-- Model of `json.dumps(x)` on `String`. -/
def jdump (j : Json) : String := String.mk (jdumpL j)

mutual

/-- Model of `json.dumps(x, indent=2)` as used for the context blocks:
items one per line, indented two spaces per level, item separator `","`,
key separator `": "`; empty containers printed inline. -/
def jdumpIndentL (lvl : Nat) : Json → List Char
  | .null => "null".data
  | .bool true => "true".data
  | .bool false => "false".data
  | .num m e => numRepr m e
  | .str s => strRepr s
  | .arr [] => ['[', ']']
  | .arr (x :: xs) =>
      '[' :: '\n' :: jdumpIndentItems (lvl + 1) (x :: xs) ++
        '\n' :: List.replicate (2 * lvl) ' ' ++ [']']
  | .obj [] => [Char.ofNat 123, Char.ofNat 125]
  | .obj (kv :: kvs) =>
      Char.ofNat 123 :: '\n' :: jdumpIndentMembers (lvl + 1) (kv :: kvs) ++
        '\n' :: List.replicate (2 * lvl) ' ' ++ [Char.ofNat 125]
termination_by structural j => j

/-- Indented array items, one per line, comma-newline separated. -/
def jdumpIndentItems (lvl : Nat) : List Json → List Char
  | [] => []
  | [x] => List.replicate (2 * lvl) ' ' ++ jdumpIndentL lvl x
  | x :: y :: t =>
      List.replicate (2 * lvl) ' ' ++ jdumpIndentL lvl x ++
        ',' :: '\n' :: jdumpIndentItems lvl (y :: t)
termination_by structural l => l

/-- Indented object members, one per line, comma-newline separated. -/
def jdumpIndentMembers (lvl : Nat) : List (String × Json) → List Char
  | [] => []
  | [(k, v)] => List.replicate (2 * lvl) ' ' ++ strRepr k ++ ':' :: ' ' :: jdumpIndentL lvl v
  | (k, v) :: y :: t =>
      List.replicate (2 * lvl) ' ' ++ strRepr k ++ ':' :: ' ' :: jdumpIndentL lvl v ++
        ',' :: '\n' :: jdumpIndentMembers lvl (y :: t)
termination_by structural l => l

end

/-- Model of `json.dumps(x, indent=2)` on `String`. -/
def jdumpIndent (j : Json) : String := String.mk (jdumpIndentL 0 j)

example : jdump (.obj [("a", .num 1 0), ("b", .arr [.num (-25) 1, .str "x"])]) =
    "\x7b\"a\": 1, \"b\": [-2.5, \"x\"]\x7d" := by decide

example : jdumpIndent (.obj [("a", .num 1 0)]) = "\x7b\n  \"a\": 1\n\x7d" := by decide

/-! ## `json.loads` (strict decoder)

The decoder follows CPython's `json` scanner: JSON whitespace, strict
strings (raw control characters rejected, the eight short escapes plus
`\uXXXX` with surrogate pairs), strict numbers (`-?(0|[1-9][0-9]*)`
optionally followed by `.digits` and an exponent), `true`/`false`/`null`,
arrays and objects, and a whole-input requirement at the top level.
Deviations, none of which the claims exercise: the non-standard
`NaN`/`Infinity` literals are rejected, a lone surrogate escape is
rejected (Python keeps it as an unpaired surrogate, which `Char` cannot
represent), numbers are kept exact instead of rounded to binary floats,
and objects keep duplicate keys instead of last-wins collapsing. -/

/-- JSON whitespace (as skipped by CPython's scanner). -/
def jsonWs (c : Char) : Bool := c = ' ' || c = '\t' || c = '\n' || c = '\r'

/-- Drop leading JSON whitespace. -/
def skipWs (cs : List Char) : List Char := cs.dropWhile jsonWs

/-- ASCII decimal digit test. -/
def isDigitChar (c : Char) : Bool := 48 ≤ c.toNat && c.toNat ≤ 57

/-- Consume a run of decimal digits, returning the accumulated value, the
number of digits consumed, and the rest. -/
def digitRun : List Char → Nat → Nat → Nat × Nat × List Char
  | [], acc, cnt => (acc, cnt, [])
  | c :: t, acc, cnt =>
      if isDigitChar c then digitRun t (acc * 10 + (c.toNat - 48)) (cnt + 1)
      else (acc, cnt, c :: t)

/-- Value of one hexadecimal digit character. -/
def hexVal (c : Char) : Option Nat :=
  if 48 ≤ c.toNat ∧ c.toNat ≤ 57 then some (c.toNat - 48)
  else if 97 ≤ c.toNat ∧ c.toNat ≤ 102 then some (c.toNat - 87)
  else if 65 ≤ c.toNat ∧ c.toNat ≤ 70 then some (c.toNat - 55)
  else none

/-- Value of a four-digit hexadecimal escape `XXXX`. -/
def hex4val (a b c d : Char) : Option Nat := do
  pure ((← hexVal a) * 4096 + (← hexVal b) * 256 + (← hexVal c) * 16 + (← hexVal d))

/-- The eight short escapes accepted after a backslash. -/
def escMap (c : Char) : Option Char :=
  if c = '"' then some '"'
  else if c = '\\' then some '\\'
  else if c = '/' then some '/'
  else if c = 'b' then some '\x08'
  else if c = 'f' then some '\x0c'
  else if c = 'n' then some '\n'
  else if c = 'r' then some '\r'
  else if c = 't' then some '\t'
  else none

/-- Decode the low-surrogate half of an escaped surrogate pair
(`\\uXXXX` with `XXXX` in `dc00`-`dfff`) following a high surrogate `n`,
combining the two into one astral character. -/
def parseSurrogatePair (n : Nat) : List Char → Option (Char × List Char)
  | r2 :: r3 :: g1 :: g2 :: g3 :: g4 :: rest3 =>
      if r2 = '\\' ∧ r3 = 'u' then
        match hex4val g1 g2 g3 g4 with
        | some p =>
            if 0xdc00 ≤ p ∧ p ≤ 0xdfff then
              some (Char.ofNat (0x10000 + (n - 0xd800) * 1024 + (p - 0xdc00)), rest3)
            else none
        | none => none
      else none
  | _ => none

/-- Interpret the value of a `\\uXXXX` escape: plain BMP character, or a
high surrogate to be combined with a following low surrogate.  A lone
surrogate is rejected (Python would keep it as an unpaired surrogate,
which `Char` cannot hold). -/
def parseUHex (n : Nat) (rest2 : List Char) : Option (Char × List Char) :=
  if n < 0xd800 ∨ 0xdfff < n then some (Char.ofNat n, rest2)
  else if n ≤ 0xdbff then parseSurrogatePair n rest2
  else none

/-- Decode one escape sequence after a backslash: `\\uXXXX` (with
surrogate pairs) or one of the eight short escapes. -/
def parseEsc : List Char → Option (Char × List Char)
  | [] => none
  | r1 :: rest1 =>
      if r1 = 'u' then
        match rest1 with
        | h1 :: h2 :: h3 :: h4 :: rest2 =>
            (match hex4val h1 h2 h3 h4 with
             | some n => parseUHex n rest2
             | none => none)
        | _ => none
      else (escMap r1).map fun d => (d, rest1)

/-- Parse the body of a JSON string after the opening quote, returning the
decoded characters and the rest after the closing quote.  Each recursive
call consumes at least one character, so the fuel `length + 1` passed by
the callers can never run out first. -/
def parseStr : Nat → List Char → Option (List Char × List Char)
  | 0, _ => none
  | _ + 1, [] => none
  | fuel + 1, c :: rest =>
      if c = '"' then some ([], rest)
      else if c = '\\' then
        match parseEsc rest with
        | some dp => (parseStr fuel dp.2).map fun p => (dp.1 :: p.1, p.2)
        | none => none
      else if c.toNat < 0x20 then none
      else (parseStr fuel rest).map fun p => (c :: p.1, p.2)

/-- Signed mantissa of a parsed number. -/
def mkNum (neg : Bool) (m : Nat) (e : Nat) : Json :=
  .num (if neg then -(m : Int) else (m : Int)) e

/-- Fold an exponent into the exact-decimal representation. -/
def applyExp (m0 e0 : Nat) (esign : Bool) (k : Nat) : Nat × Nat :=
  if esign then (m0, e0 + k)
  else if k ≤ e0 then (m0, e0 - k) else (m0 * 10 ^ (k - e0), 0)

/-- Parse an optional exponent part after mantissa `m0 / 10 ^ e0`. -/
def parseExpTail (m0 e0 : Nat) : List Char → Option ((Nat × Nat) × List Char)
  | [] => some ((m0, e0), [])
  | c :: t =>
      if c = 'e' ∨ c = 'E' then
        let st : Bool × List Char :=
          match t with
          | c1 :: t1 => if c1 = '+' then (false, t1) else if c1 = '-' then (true, t1) else (false, c1 :: t1)
          | [] => (false, [])
        match digitRun st.2 0 0 with
        | (k, cnt, rest) => if cnt = 0 then none else some (applyExp m0 e0 st.1 k, rest)
      else some ((m0, e0), c :: t)

/-- Parse an optional fraction then exponent after integer part `iv`. -/
def parseFracExp (iv : Nat) : List Char → Option ((Nat × Nat) × List Char)
  | [] => parseExpTail iv 0 []
  | c :: t =>
      if c = '.' then
        match digitRun t 0 0 with
        | (fv, fc, rest) => if fc = 0 then none else parseExpTail (iv * 10 ^ fc + fv) fc rest
      else parseExpTail iv 0 (c :: t)

/-- Parse the unsigned part of a strict JSON number
(`(0|[1-9][0-9]*)(.digits)?([eE][+-]?digits)?`). -/
def parseNumBody (neg : Bool) : List Char → Option (Json × List Char)
  | [] => none
  | c :: t =>
      if c = '0' then (parseFracExp 0 t).map fun p => (mkNum neg p.1.1 p.1.2, p.2)
      else if isDigitChar c then
        match digitRun t (c.toNat - 48) 1 with
        | (v, _, rest) => (parseFracExp v rest).map fun p => (mkNum neg p.1.1 p.1.2, p.2)
      else none

/-- Parse a strict JSON number (`-?(0|[1-9][0-9]*)(.digits)?([eE][+-]?digits)?`). -/
def parseNumber (cs : List Char) : Option (Json × List Char) :=
  match cs with
  | c :: t => if c = '-' then parseNumBody true t else parseNumBody false (c :: t)
  | [] => none

mutual

/-- Parse one JSON value.  The fuel only bounds the mutual recursion; each
pair of recursive calls consumes at least one character, so the fuel
`2 * length + 4` used by `loadsL` can never be exhausted first. -/
def parseVal : Nat → List Char → Option (Json × List Char)
  | 0, _ => none
  | fuel + 1, cs =>
      match cs with
      | [] => none
      | c :: t =>
          if c = '"' then (parseStr (t.length + 1) t).map fun p => (Json.str (String.mk p.1), p.2)
          else if c = '[' then
            match skipWs t with
            | [] => none
            | c2 :: r =>
                if c2 = ']' then some (.arr [], r)
                else (parseElems fuel (c2 :: r)).map fun p => (Json.arr p.1, p.2)
          else if c = Char.ofNat 123 then
            match skipWs t with
            | c2 :: r =>
                if c2 = Char.ofNat 125 then some (.obj [], r)
                else (parseMembers fuel (c2 :: r)).map fun p => (Json.obj p.1, p.2)
            | [] => none
          else if c = 't' then
            match t with
            | 'r' :: 'u' :: 'e' :: r => some (.bool true, r)
            | _ => none
          else if c = 'f' then
            match t with
            | 'a' :: 'l' :: 's' :: 'e' :: r => some (.bool false, r)
            | _ => none
          else if c = 'n' then
            match t with
            | 'u' :: 'l' :: 'l' :: r => some (.null, r)
            | _ => none
          else if c = '-' ∨ isDigitChar c then parseNumber (c :: t)
          else none

/-- Parse the elements of a non-empty array, including the closing bracket. -/
def parseElems : Nat → List Char → Option (List Json × List Char)
  | 0, _ => none
  | fuel + 1, cs =>
      match parseVal fuel cs with
      | none => none
      | some (v, rest) =>
          match skipWs rest with
          | ']' :: r => some ([v], r)
          | ',' :: r => (parseElems fuel (skipWs r)).map fun p => (v :: p.1, p.2)
          | _ => none

/-- Parse the members of a non-empty object, including the closing brace. -/
def parseMembers : Nat → List Char → Option (List (String × Json) × List Char)
  | 0, _ => none
  | fuel + 1, cs =>
      match cs with
      | '"' :: t =>
          match parseStr (t.length + 1) t with
          | none => none
          | some (k, rest) =>
              match skipWs rest with
              | ':' :: r =>
                  match parseVal fuel (skipWs r) with
                  | none => none
                  | some (v, rest2) =>
                      match skipWs rest2 with
                      | c :: r2 =>
                          if c = ',' then
                            (parseMembers fuel (skipWs r2)).map fun p =>
                              ((String.mk k, v) :: p.1, p.2)
                          else if c = Char.ofNat 125 then some ([(String.mk k, v)], r2)
                          else none
                      | [] => none
              | _ => none
      | _ => none

end

/-- Model of `json.loads` on character lists: skip surrounding whitespace,
parse exactly one value, reject leftover input. -/
def loadsL (cs : List Char) : Option Json :=
  match parseVal (2 * cs.length + 4) (skipWs cs) with
  | some (v, rest) => if skipWs rest = [] then some v else none
  | none => none

/-- Model of `json.loads` on `String`. -/
def loads (s : String) : Option Json := loadsL s.data

example : loads "\x7b\"a\": 1, \"b\": [-2.5e1, \"x\\n\", true]\x7d" =
    some (.obj [("a", .num 1 0), ("b", .arr [.num (-25) 0, .str "x\n", .bool true])]) := by
  decide

example : loads "Sorry, I cannot help with that." = none := by decide

example : loads "  [0.50, \x7b\x7d, [], null]  " =
    some (.arr [.num 50 2, .obj [], .arr [], .null]) := by decide

example : loads "[01]" = none := by decide

example : loads "\"\\u00e9\\ud83d\\ude00\"" = some (.str "é😀") := by decide

/-- What may legally follow a serialized number: nothing, or a character
that neither extends the digit run nor opens a fraction or exponent. -/
def numStop : List Char → Prop
  | [] => True
  | c :: _ => isDigitChar c = false ∧ c ≠ '.' ∧ c ≠ 'e' ∧ c ≠ 'E'

/-! ### Fuel accounting for the mutual value parser -/

mutual

/-- Number of mutual parser calls needed on the serialization of a value. -/
def jcost : Json → Nat
  | .null => 1
  | .bool _ => 1
  | .num _ _ => 1
  | .str _ => 1
  | .arr [] => 1
  | .arr (x :: xs) => 1 + jcostElems (x :: xs)
  | .obj [] => 1
  | .obj (kv :: kvs) => 1 + jcostMembers (kv :: kvs)
termination_by structural j => j

/-- Parser calls needed on serialized array items. -/
def jcostElems : List Json → Nat
  | [] => 0
  | [x] => 1 + jcost x
  | x :: y :: t => 1 + jcost x + jcostElems (y :: t)
termination_by structural l => l

/-- Parser calls needed on serialized object members. -/
def jcostMembers : List (String × Json) → Nat
  | [] => 0
  | [kv] => 1 + jcost kv.2
  | kv :: y :: t => 1 + jcost kv.2 + jcostMembers (y :: t)
termination_by structural l => l

end

/-- What may legally follow a serialized value inside a larger document:
nothing, or a separator/closer. -/
def restOk (rest : List Char) : Prop :=
  rest = [] ∨ ∃ c t, rest = c :: t ∧ (c = ',' ∨ c = ']' ∨ c = Char.ofNat 125)

/-! ## Prompt store (`get_stored_system_prompt` / `save_system_prompt` /
`update_system_prompt`)

The backing file `prompts/system_prompt.txt` is modelled by `PromptFile`:
absent, present with some content, or raising on read (`readError`, the
`except Exception` branch). -/

/-- The built-in default system prompt (`SYSTEM_PROMPT` in `app.py`), verbatim. -/
def SYSTEM_PROMPT : String :=
  "You are an expert optical engineer specializing in lens design. Users will describe their optical design requirements, and you must generate complete, valid optical designs.\n" ++
  "\nYour response MUST be a valid JSON object following this exact schema:\n\n\x7b\n" ++
  "  \"source\": \x7b\n    \"type\": \"point\" | \"infinity\",\n    \"fields\": [\n" ++
  "      // For infinity sources: \x7b \"deg\": number \x7d\n" ++
  "      // For point sources: \x7b \"x_mm\": number, \"y_mm\": number \x7d\n    ],\n" ++
  "    \"wavelengths_nm\": [number, ...]\n  \x7d,\n  \"lenses\": [\n    \x7b\n" ++
  "      \"diameter_mm\": number,\n      \"thickness_mm\": number,\n" ++
  "      \"distance_from_previous_mm\": number,\n      \"material\": string,\n" ++
  "      \"refractiveIndex\": number,\n      \"front\": \x7b\n" ++
  "        \"type\": \"planar\" | \"spherical\" | \"aspherical\",\n" ++
  "        \"roc_mm\": number,  // optional for planar\n" ++
  "        \"conic\": number,   // optional, for aspherical\n" ++
  "        \"asphere\": [A4, A6, A8, A10]  // optional, 4-element array\n      \x7d,\n" ++
  "      \"back\": \x7b\n        \"type\": \"planar\" | \"spherical\" | \"aspherical\",\n" ++
  "        \"roc_mm\": number,\n        \"conic\": number,\n        \"asphere\": [A4, A6, A8, A10]\n" ++
  "      \x7d,\n      \"label\": string\n    \x7d\n  ],\n  \"image_plane_x_mm\": number\n\x7d\n\n" ++
  "IMPORTANT DESIGN RULES:\n" ++
  "1. All distances and dimensions must be positive unless specified otherwise\n" ++
  "2. ROC (radius of curvature) sign convention:\n" ++
  "   - Positive: center of curvature at larger X (convex when light travels +X)\n" ++
  "   - Negative: center of curvature at smaller X (concave when light travels +X)\n" ++
  "3. Common materials: BK7 (n≈1.517), SF11 (n≈1.785), Fused Silica (n≈1.458), N-BK7, SF5, etc.\n" ++
  "4. Standard wavelengths (nm): d-line (587.6), F-line (486.1), C-line (656.3)\n" ++
  "5. For infinity sources, use field angles in degrees (0 for on-axis)\n" ++
  "6. For point sources, use x_mm and y_mm coordinates\n" ++
  "7. distance_from_previous_mm for first lens is distance from source\n" ++
  "8. Planar surfaces don\x27t require roc_mm\n" ++
  "9. Aspherical surfaces need both conic and optionally asphere coefficients\n\n" ++
  "Respond ONLY with the JSON object, no markdown code blocks, no explanations outside the JSON.\n" ++
  "If you want to provide an explanation, include it as a top-level \"explanation\" field in the JSON."
deriving instance DecidableEq for Except

/-- State of the system-prompt file. -/
inductive PromptFile where
  | absent
  | present (content : String)
  | readError
deriving DecidableEq, Repr

/-- Model of `get_stored_system_prompt()`: read and strip the file when it
exists, fall back to `SYSTEM_PROMPT` when the file is missing, stripped
empty, or unreadable (the exception is swallowed). -/
def get_stored_system_prompt : PromptFile → String
  | .absent => SYSTEM_PROMPT
  | .present c =>
      let content := pyStripStr c
      if content ≠ "" then content else SYSTEM_PROMPT
  | .readError => SYSTEM_PROMPT

/-- Model of `save_system_prompt(content)`: write the content verbatim. -/
def save_system_prompt (content : String) : PromptFile :=
  .present content

/-- The `HTTPException(400, "System prompt content cannot be empty")`
raised by the save endpoint. -/
inductive PromptSaveError where
  | validation
deriving DecidableEq, Repr

/-- Model of the `POST /api/system-prompt` handler body
(`update_system_prompt`): reject stripped-empty content with a
validation error before writing, otherwise persist. -/
def update_system_prompt (content : String) (fs : PromptFile) :
    Except PromptSaveError Unit × PromptFile :=
  if pyStripStr content = "" then (.error .validation, fs)
  else (.ok (), save_system_prompt content)

/-! ## Context assembly (the `messages` block shared verbatim by
`generate_optical_design` and `chat_endpoint`) -/

/-- One Claude message (`{"role": ..., "content": ...}`). -/
structure Turn where
  role : String
  content : String
deriving DecidableEq, Repr

/-- Label of the previous-design context block. -/
def prevDesignLabel : String := "PREVIOUS DESIGN (for reference/iteration):\n"

/-- Label of the added-data context block. -/
def addedDataLabel : String := "ADDITIONAL CONTEXT:\n"

/-- The fixed assistant acknowledgment inserted after a context block. -/
def ackMessage : String :=
  "I\x27ve noted the previous design and additional context. " ++
  "I\x27ll use this information to help with the current request."

/-- The `context_parts` list: one labelled, `indent=2`-serialized block per
input that is Python-truthy (`if request.previous_design:` skips both
`None` and an empty dict). -/
def contextParts (previous_design added_data : Option (List (String × Json))) : List String :=
  (match previous_design with
   | some d => if d.isEmpty then [] else [prevDesignLabel ++ jdumpIndent (.obj d)]
   | none => []) ++
  (match added_data with
   | some d => if d.isEmpty then [] else [addedDataLabel ++ jdumpIndent (.obj d)]
   | none => [])

/-- The `messages` list sent to the model: a synthetic user turn joining
the context parts with a blank line and a fixed assistant acknowledgment
when any context part exists, followed by the live user message. -/
def buildMessages (previous_design added_data : Option (List (String × Json)))
    (user_message : String) : List Turn :=
  let parts := contextParts previous_design added_data
  (if parts.isEmpty then []
   else [⟨"user", String.intercalate "\n\n" parts⟩, ⟨"assistant", ackMessage⟩]) ++
  [⟨"user", user_message⟩]

/-! ## Response extraction (`generate_optical_design`, reply-processing tail) -/

/-- The fence marker searched with `"\x60\x60\x60json" in response_text`. -/
def jsonFenceMarker : List Char := "```json".data

/-- The closing fence `"\x60\x60\x60"`. -/
def jsonFenceClose : List Char := "```".data

/-- Failure of the reply-processing tail of `generate_optical_design`
before validation.  `extraction` is the
`HTTPException(500, "Failed to parse Claude response as JSON: ...")`
whose detail embeds the offending response text; `innerDecode` is the
`json.JSONDecodeError` raised by the second `json.loads` on the sliced
fence content, which no local handler catches. -/
inductive ExtractError where
  | extraction (response_text : String)
  | innerDecode (sliced : String)
deriving DecidableEq, Repr

/-- Model of the parse/extract block (`app.py` lines 328-344): strip the
reply, try a direct `json.loads`, and on failure re-slice between the
`\x60\x60\x60json` marker and the next `\x60\x60\x60` (an absent closing fence makes
`find` return `-1`, slicing up to the last character) and parse that. -/
def extractL (raw : List Char) : Except ExtractError Json :=
  let response_text := pyStrip raw
  match loadsL response_text with
  | some j => .ok j
  | none =>
      if pyContains response_text jsonFenceMarker then
        let json_start : Int := pyFind response_text jsonFenceMarker + 7
        let json_end : Int := pyFindFrom response_text jsonFenceClose json_start.toNat
        let sliced := pyStrip (pySlice response_text json_start json_end)
        match loadsL sliced with
        | some j => .ok j
        | none => .error (.innerDecode (String.mk sliced))
      else .error (.extraction (String.mk response_text))

/-- Model of the parse/extract block on `String`. -/
def extract (raw : String) : Except ExtractError Json := extractL raw.data

/-- First binding of a key in an object (a Python `dict` has at most one). -/
def assocKey : List (String × Json) → String → Option Json
  | [], _ => none
  | (a, b) :: t, k => if a = k then some b else assocKey t k

/-- Object without any binding of a key. -/
def eraseKey : List (String × Json) → String → List (String × Json)
  | [], _ => []
  | (a, b) :: t, k => if a = k then eraseKey t k else (a, b) :: eraseKey t k

/-- Python `d.pop(k, None)`: the popped value and the remaining dict. -/
def pyPop (kvs : List (String × Json)) (k : String) : Option Json × List (String × Json) :=
  (assocKey kvs k, eraseKey kvs k)

/-! ## Design schema (the pydantic response models)

pydantic's `ValidationError` — the spec's `SchemaError` — is modelled as
`none`.  Extra keys are ignored, as pydantic does by default.  Numeric
fields accept exactly JSON numbers (pydantic's lax coercion from numeric
strings is not modelled; no claim exercises it). -/

/-- `class InfinityField(BaseModel): deg: float`. -/
structure InfinityField where
  deg : JNum
deriving DecidableEq, Repr

/-- `class PointField(BaseModel): x_mm: float; y_mm: float`. -/
structure PointField where
  x_mm : JNum
  y_mm : JNum
deriving DecidableEq, Repr

/-- A validated element of `Source.fields`
(`Union[InfinityField, PointField]`). -/
inductive FieldPoint where
  | infinity (f : InfinityField)
  | point (f : PointField)
deriving DecidableEq, Repr

/-- `class Source(BaseModel)`. -/
structure Source where
  type : String
  fields : List FieldPoint
  wavelengths_nm : List JNum
deriving DecidableEq, Repr

/-- `class Surface(BaseModel)`. -/
structure Surface where
  type : String
  roc_mm : Option JNum
  conic : Option JNum
  asphere : Option (List JNum)
deriving DecidableEq, Repr

/-- `class Lens(BaseModel)`. -/
structure Lens where
  diameter_mm : JNum
  thickness_mm : JNum
  distance_from_previous_mm : JNum
  material : String
  refractiveIndex : Option JNum
  front : Surface
  back : Surface
  label : Option String
deriving DecidableEq, Repr

/-- `class OpticalDesign(BaseModel)`. -/
structure OpticalDesign where
  source : Source
  lenses : List Lens
  image_plane_x_mm : JNum
deriving DecidableEq, Repr

/-- Elementwise validation of a list (pydantic `List[...]`): every
element must validate, results in order. -/
def optionMapM {α β : Type} (f : α → Option β) : List α → Option (List β)
  | [] => some []
  | x :: t => (f x).bind fun y => (optionMapM f t).map fun ys => y :: ys

/-- A JSON number, as required by a `float` field. -/
def jAsNum : Json → Option JNum
  | .num m e => some ⟨m, e⟩
  | _ => none

/-- A JSON string, as required by a `str` field. -/
def jAsStr : Json → Option String
  | .str s => some s
  | _ => none

/-- A JSON array, as required by a `List[...]` field. -/
def jAsArr : Json → Option (List Json)
  | .arr xs => some xs
  | _ => none

/-- A JSON object, as required by a nested `BaseModel` field. -/
def jAsObj : Json → Option (List (String × Json))
  | .obj kvs => some kvs
  | _ => none

/-- Required `float` field: missing or non-numeric fails. -/
def reqNum (kvs : List (String × Json)) (k : String) : Option JNum :=
  assocKey kvs k >>= jAsNum

/-- `Optional[float] = None` field: absent or `null` is `none`; a present
value of the wrong type fails. -/
def optNum (kvs : List (String × Json)) (k : String) : Option (Option JNum) :=
  match assocKey kvs k with
  | none => some none
  | some .null => some none
  | some j => (jAsNum j).map some

/-- `Optional[str] = None` field. -/
def optStr (kvs : List (String × Json)) (k : String) : Option (Option String) :=
  match assocKey kvs k with
  | none => some none
  | some .null => some none
  | some j => (jAsStr j).map some

/-- `Optional[List[float]] = None` field. -/
def optNumList (kvs : List (String × Json)) (k : String) : Option (Option (List JNum)) :=
  match assocKey kvs k with
  | none => some none
  | some .null => some none
  | some j => ((jAsArr j).bind fun xs => optionMapM jAsNum xs).map some

/-- Validation of `InfinityField`. -/
def validateInfinityField (j : Json) : Option InfinityField := do
  let kvs ← jAsObj j
  let d ← reqNum kvs "deg"
  pure ⟨d⟩

/-- Validation of `PointField`. -/
def validatePointField (j : Json) : Option PointField := do
  let kvs ← jAsObj j
  let x ← reqNum kvs "x_mm"
  let y ← reqNum kvs "y_mm"
  pure ⟨x, y⟩

/-- Validation of one `fields` element against
`Union[InfinityField, PointField]`: union members tried left to right,
first success wins.  Nothing relates the accepted variant to
`Source.type`. -/
def validateFieldPoint (j : Json) : Option FieldPoint :=
  match validateInfinityField j with
  | some f => some (.infinity f)
  | none => (validatePointField j).map .point

/-- Validation of `Source`: `type` a literal `"point"` or `"infinity"`,
`fields` a list of union elements, `wavelengths_nm` a list of numbers
(`List[float]` — no emptiness or positivity constraint appears in the
model class). -/
def validateSource (j : Json) : Option Source := do
  let kvs ← jAsObj j
  let t ← assocKey kvs "type" >>= jAsStr
  if t = "point" ∨ t = "infinity" then
    let fs ← optionMapM validateFieldPoint (← assocKey kvs "fields" >>= jAsArr)
    let wl ← optionMapM jAsNum (← assocKey kvs "wavelengths_nm" >>= jAsArr)
    pure ⟨t, fs, wl⟩
  else none

/-- Validation of `Surface`. -/
def validateSurface (j : Json) : Option Surface := do
  let kvs ← jAsObj j
  let t ← assocKey kvs "type" >>= jAsStr
  if t = "planar" ∨ t = "spherical" ∨ t = "aspherical" then
    let roc ← optNum kvs "roc_mm"
    let con ← optNum kvs "conic"
    let asph ← optNumList kvs "asphere"
    pure ⟨t, roc, con, asph⟩
  else none

/-- Validation of `Lens`. -/
def validateLens (j : Json) : Option Lens := do
  let kvs ← jAsObj j
  let dia ← reqNum kvs "diameter_mm"
  let th ← reqNum kvs "thickness_mm"
  let dist ← reqNum kvs "distance_from_previous_mm"
  let mat ← assocKey kvs "material" >>= jAsStr
  let ri ← optNum kvs "refractiveIndex"
  let fr ← assocKey kvs "front" >>= validateSurface
  let bk ← assocKey kvs "back" >>= validateSurface
  let lb ← optStr kvs "label"
  pure ⟨dia, th, dist, mat, ri, fr, bk, lb⟩

/-- Validation of the top-level `OpticalDesign(**design_data)` call. -/
def validateOpticalDesign (kvs : List (String × Json)) : Option OpticalDesign := do
  let src ← assocKey kvs "source" >>= validateSource
  let ls ← optionMapM validateLens (← assocKey kvs "lenses" >>= jAsArr)
  let ip ← reqNum kvs "image_plane_x_mm"
  pure ⟨src, ls, ip⟩

/-- Failure of the reply-processing pipeline of `generate_optical_design`. -/
inductive DesignError where
  | extraction (e : ExtractError)
  | schema
  | notObject
deriving DecidableEq, Repr

/-- Model of the `generate_optical_design` tail after the Claude call:
extract a JSON value from the reply, pop the top-level `explanation`
(a non-dict reply makes `.pop` raise, `notObject`), validate the rest
as `OpticalDesign` and return it with the popped explanation. -/
def generate_design_tail (raw : String) :
    Except DesignError (OpticalDesign × Option Json) :=
  match extract raw with
  | .error e => .error (.extraction e)
  | .ok (.obj kvs) =>
      let popped := pyPop kvs "explanation"
      match validateOpticalDesign popped.2 with
      | some d => .ok (d, popped.1)
      | none => .error .schema
  | .ok _ => .error .notObject

/-! ## Chat endpoint (`chat_endpoint`, reply-processing tail) -/

/-- The two response shapes of `POST /api/chat`. -/
inductive ChatResult where
  | design (data : Json) (raw_response : String)
  | text (message : String) (raw_response : String)
deriving DecidableEq, Repr

/-- The `response_text` value after the chat endpoint's fence handling:
stripped reply, re-sliced and re-stripped when it contains the
`\x60\x60\x60json` marker (before any parse attempt, unlike the design
endpoint). -/
def chat_response_text (raw : List Char) : List Char :=
  let response_text := pyStrip raw
  if pyContains response_text jsonFenceMarker then
    let json_start : Int := pyFind response_text jsonFenceMarker + 7
    let json_end : Int := pyFindFrom response_text jsonFenceClose json_start.toNat
    pyStrip (pySlice response_text json_start json_end)
  else response_text

/-- Model of the `chat_endpoint` tail after the Claude call: parse the
(possibly fence-extracted) text, returning the `design` shape on success
and the `text` shape on `json.JSONDecodeError` — never an error. -/
def chat_endpoint_tail (raw : String) : ChatResult :=
  let t := chat_response_text raw.data
  match loadsL t with
  | some j => .design j (String.mk t)
  | none => .text (String.mk t) (String.mk t)

/-- Python truthiness of an `Optional[dict]`: `None` and the empty dict
are falsy. -/
def pyTruthyDict : Option (List (String × Json)) → Bool
  | none => false
  | some d => !d.isEmpty

/-! ## Supporting lemmas -/

theorem optionMapM_isSome {α β : Type} (f : α → Option β) :
    ∀ l : List α, (∀ x ∈ l, (f x).isSome) → (optionMapM f l).isSome := by
  intro l
  induction l with
  | nil => simp [optionMapM]
  | cons x t ih =>
      intro h
      obtain ⟨y, hy⟩ := Option.isSome_iff_exists.mp (h x (by simp))
      obtain ⟨ys, hys⟩ := Option.isSome_iff_exists.mp (ih fun z hz => h z (by simp [hz]))
      simp [optionMapM, hy, hys]

theorem assocKey_eraseKey (kvs : List (String × Json)) (k : String) :
    assocKey (eraseKey kvs k) k = none := by
  induction kvs with
  | nil => rfl
  | cons kv t ih =>
      obtain ⟨a, b⟩ := kv
      by_cases h : a = k <;> simp [eraseKey, assocKey, h, ih]

theorem eraseKey_id_of_absent (kvs : List (String × Json)) (k : String)
    (h : assocKey kvs k = none) : eraseKey kvs k = kvs := by
  induction kvs with
  | nil => rfl
  | cons kv t ih =>
      obtain ⟨a, b⟩ := kv
      by_cases hk : a = k
      · simp [assocKey, hk] at h
      · simp [assocKey, hk] at h
        simp [eraseKey, hk, ih h]

/-! ## Claim C1 -/

/-- C1 (counterexample): a raw design whose `source.type` is `"point"`
while its single `fields` entry is the infinity variant `\x7b"deg": 0\x7d`
is accepted by validation — construction does not fail with a
`SchemaError` as the claim states; the entry validates as the left union
member and no cross-check against `source.type` exists. -/
theorem fields_variant_mix_counterexample :
    validateOpticalDesign
      [("source", .obj [("type", .str "point"),
         ("fields", .arr [.obj [("deg", .num 0 0)]]),
         ("wavelengths_nm", .arr [.num 5876 1])]),
       ("lenses", .arr []), ("image_plane_x_mm", .num 0 0)] =
      some ⟨⟨"point", [.infinity ⟨⟨0, 0⟩⟩], [⟨5876, 1⟩]⟩, [], ⟨0, 0⟩⟩ := by decide

/-- C1 (amended): validation does not cross-check `fields` entries
against `source.type`.  For either source type, a `fields` list whose
every element validates as one of the two variants — in whatever mixture —
and a `wavelengths_nm` list of numbers yield a successfully constructed
`Source`. -/
theorem fields_variant_not_crosschecked
    (t : String) (fsj wlj : List Json)
    (ht : t = "point" ∨ t = "infinity")
    (hf : ∀ j ∈ fsj, (validateFieldPoint j).isSome)
    (hw : ∀ j ∈ wlj, (jAsNum j).isSome) :
    (validateSource (.obj
      [("type", .str t), ("fields", .arr fsj),
       ("wavelengths_nm", .arr wlj)])).isSome := by
  obtain ⟨fs, hfs⟩ := Option.isSome_iff_exists.mp (optionMapM_isSome validateFieldPoint fsj hf)
  obtain ⟨wl, hwl⟩ := Option.isSome_iff_exists.mp (optionMapM_isSome jAsNum wlj hw)
  rcases ht with rfl | rfl <;>
    simp [validateSource, jAsObj, assocKey, jAsStr, jAsArr, hfs, hwl]

/-- C1 (witness): the amended statement applied to a point source whose
`fields` entry is the infinity variant. -/
theorem fields_variant_not_crosschecked_witness :
    (validateSource (.obj
      [("type", .str "point"), ("fields", .arr [.obj [("deg", .num 0 0)]]),
       ("wavelengths_nm", .arr [.num 588 0])])).isSome :=
  fields_variant_not_crosschecked "point" [.obj [("deg", .num 0 0)]] [.num 588 0]
    (by decide) (by decide) (by decide)

/-! ## Claim C2 -/

/-- C2 (confirmed): when the stripped reply neither parses as JSON nor
contains the `\x60\x60\x60json` marker, the extraction step of
`generate_optical_design` fails with the extraction error carrying the
offending response text — it never returns a design. -/
theorem extraction_fails_with_offending_text (raw : List Char)
    (hparse : loadsL (pyStrip raw) = none)
    (hmarker : pyContains (pyStrip raw) jsonFenceMarker = false) :
    extractL raw = .error (.extraction (String.mk (pyStrip raw))) := by
  unfold extractL
  simp [hparse, hmarker]

/-- C2 (witness): the spec's own example reply. -/
theorem extraction_fails_with_offending_text_witness :
    extractL "Sorry, I cannot help with that.".data =
      .error (.extraction (String.mk (pyStrip "Sorry, I cannot help with that.".data))) :=
  extraction_fails_with_offending_text "Sorry, I cannot help with that.".data
    (by decide) (by decide)

/-! ## Claim C4 -/

/-- C4 (counterexample): a `previous_design` that is present but an empty
dict is Python-falsy, so the produced sequence is the single live user
turn — not the three-turn sequence the claim requires for every present
input. -/
theorem context_empty_dict_counterexample :
    buildMessages (some []) none "hi" = [⟨"user", "hi"⟩] := by decide

/-- C4 (amended): if `previous_design` and/or `added_data` is present
*and non-empty* (Python truthiness), the produced sequence is exactly the
synthetic user turn carrying the labelled pretty-printed JSON blocks, the
fixed assistant acknowledgment, then the live user turn; otherwise —
including present-but-empty dicts — it is exactly the live user turn. -/
theorem buildMessages_shape (pd ad : Option (List (String × Json))) (um : String) :
    ((pyTruthyDict pd || pyTruthyDict ad) = true →
      buildMessages pd ad um =
        [⟨"user", String.intercalate "\n\n" (contextParts pd ad)⟩,
         ⟨"assistant", ackMessage⟩, ⟨"user", um⟩]) ∧
    ((pyTruthyDict pd || pyTruthyDict ad) = false →
      buildMessages pd ad um = [⟨"user", um⟩]) := by
  have hempty : (contextParts pd ad).isEmpty = !(pyTruthyDict pd || pyTruthyDict ad) := by
    rcases pd with _ | d₁ <;> rcases ad with _ | d₂ <;>
      simp only [contextParts, pyTruthyDict]
    · rfl
    · by_cases h2 : d₂.isEmpty <;> simp [h2]
    · by_cases h1 : d₁.isEmpty <;> simp [h1]
    · by_cases h1 : d₁.isEmpty <;> by_cases h2 : d₂.isEmpty <;> simp [h1, h2]
  constructor
  · intro h
    have hE : (contextParts pd ad).isEmpty = false := by rw [hempty, h]; rfl
    simp [buildMessages, hE]
  · intro h
    have hE : (contextParts pd ad).isEmpty = true := by rw [hempty, h]; rfl
    simp [buildMessages, hE]

/-- C4 (witness): the amended statement applied to a non-empty
`previous_design` with an empty `added_data`, and to two absent inputs. -/
theorem buildMessages_shape_witness :
    buildMessages (some [("a", Json.num 1 0)]) (some []) "go" =
      [⟨"user", String.intercalate "\n\n"
          (contextParts (some [("a", Json.num 1 0)]) (some []))⟩,
       ⟨"assistant", ackMessage⟩, ⟨"user", "go"⟩] ∧
    buildMessages none none "go" = [⟨"user", "go"⟩] :=
  ⟨(buildMessages_shape (some [("a", Json.num 1 0)]) (some []) "go").1 (by decide),
   (buildMessages_shape none none "go").2 (by decide)⟩

/-! ## Claim C5 -/

/-- C5 (counterexample): with the file present and holding `"  x  "` —
non-empty after trimming — `get()` returns the trimmed `"x"`, not the
persisted content, contradicting the claim that the persisted override
content is returned. -/
theorem get_returns_trimmed_counterexample :
    get_stored_system_prompt (.present "  x  ") = "x" ∧ ("x" : String) ≠ "  x  " := by
  decide

/-- C5 (amended): `get()` is total and never fails outward: it returns
the *trimmed* persisted content when the file exists and the content is
non-empty after trimming, and the built-in default otherwise — when the
file is absent, whitespace-only, or unreadable (the read error is
swallowed). -/
theorem get_total_with_trim (c : String) :
    (pyStripStr c ≠ "" → get_stored_system_prompt (.present c) = pyStripStr c) ∧
    (pyStripStr c = "" → get_stored_system_prompt (.present c) = SYSTEM_PROMPT) ∧
    get_stored_system_prompt .absent = SYSTEM_PROMPT ∧
    get_stored_system_prompt .readError = SYSTEM_PROMPT := by
  refine ⟨fun h => ?_, fun h => ?_, rfl, rfl⟩ <;> simp [get_stored_system_prompt, h]

/-- C5 (witness): the amended statement at a padded and at a
whitespace-only stored content. -/
theorem get_total_with_trim_witness :
    get_stored_system_prompt (.present " hello ") = pyStripStr " hello " ∧
    get_stored_system_prompt (.present " \n ") = SYSTEM_PROMPT :=
  ⟨(get_total_with_trim " hello ").1 (by decide), (get_total_with_trim " \n ").2.1 (by decide)⟩

/-! ## Claim C6 -/

/-- C6 (confirmed): saving a content that strips to empty fails with the
validation error and leaves the store — hence every later `get()` —
unchanged. -/
theorem empty_prompt_rejected (c : String) (fs : PromptFile)
    (h : pyStripStr c = "") :
    update_system_prompt c fs = (.error .validation, fs) ∧
    get_stored_system_prompt (update_system_prompt c fs).2 = get_stored_system_prompt fs := by
  unfold update_system_prompt
  simp [h]

/-- C6 (witness): a whitespace-only content against a populated store. -/
theorem empty_prompt_rejected_witness :
    update_system_prompt "  \n " (.present "keep") = (.error .validation, .present "keep") ∧
    get_stored_system_prompt (update_system_prompt "  \n " (.present "keep")).2 =
      get_stored_system_prompt (.present "keep") :=
  empty_prompt_rejected "  \n " (.present "keep") (by decide)

/-! ## Claim C7 -/

/-- C7 (confirmed): after a successful parse to an object, the design
pipeline validates the object with every `"explanation"` binding removed
and returns the popped value separately; when the key is absent the
returned explanation is `none` and the object is validated unchanged. -/
theorem explanation_popped (raw : String) (kvs : List (String × Json))
    (h : extract raw = .ok (.obj kvs)) :
    generate_design_tail raw =
      (match validateOpticalDesign (eraseKey kvs "explanation") with
       | some d => .ok (d, assocKey kvs "explanation")
       | none => .error .schema) ∧
    assocKey (eraseKey kvs "explanation") "explanation" = none ∧
    (assocKey kvs "explanation" = none → eraseKey kvs "explanation" = kvs) := by
  refine ⟨?_, assocKey_eraseKey kvs "explanation",
    eraseKey_id_of_absent kvs "explanation"⟩
  unfold generate_design_tail
  rw [h]
  rfl

/-- C7 (witness): a reply object carrying an `explanation` key; the
pipeline validates the object without that key and returns the popped
value separately. -/
theorem explanation_popped_witness :
    extract "\x7b\"explanation\": \"hi\", \"x\": 1\x7d" =
      .ok (.obj [("explanation", .str "hi"), ("x", .num 1 0)]) ∧
    (generate_design_tail "\x7b\"explanation\": \"hi\", \"x\": 1\x7d" =
      (match validateOpticalDesign
          (eraseKey [("explanation", .str "hi"), ("x", .num 1 0)] "explanation") with
       | some d => .ok (d,
          assocKey [("explanation", .str "hi"), ("x", .num 1 0)] "explanation")
       | none => .error .schema) ∧
      assocKey (eraseKey [("explanation", .str "hi"), ("x", .num 1 0)] "explanation")
        "explanation" = none ∧
      (assocKey [("explanation", .str "hi"), ("x", .num 1 0)] "explanation" = none →
        eraseKey [("explanation", .str "hi"), ("x", .num 1 0)] "explanation" =
          [("explanation", .str "hi"), ("x", .num 1 0)])) :=
  ⟨by decide,
   explanation_popped "\x7b\"explanation\": \"hi\", \"x\": 1\x7d"
     [("explanation", .str "hi"), ("x", .num 1 0)] (by decide)⟩

/-! ## Claim C8 -/

/-- C8 (counterexample): a raw design with an empty `wavelengths_nm`, and
one whose single wavelength is negative, are both accepted by validation —
construction does not fail with a `SchemaError` as the claim states. -/
theorem wavelengths_unchecked_counterexample :
    (validateOpticalDesign
      [("source", .obj [("type", .str "infinity"),
         ("fields", .arr [.obj [("deg", .num 0 0)]]),
         ("wavelengths_nm", .arr [])]),
       ("lenses", .arr []), ("image_plane_x_mm", .num 0 0)]).isSome = true ∧
    (validateOpticalDesign
      [("source", .obj [("type", .str "infinity"),
         ("fields", .arr [.obj [("deg", .num 0 0)]]),
         ("wavelengths_nm", .arr [.num (-5) 0])]),
       ("lenses", .arr []), ("image_plane_x_mm", .num 0 0)]).isSome = true := by decide

/-- C8 (amended): `wavelengths_nm` is validated only as a sequence of
numbers (`List[float]`): any such sequence — empty or containing
non-positive values — yields a successfully constructed design. -/
theorem wavelengths_unchecked (wlj : List Json)
    (hw : ∀ j ∈ wlj, (jAsNum j).isSome) :
    (validateOpticalDesign
      [("source", .obj [("type", .str "infinity"),
         ("fields", .arr [.obj [("deg", .num 0 0)]]),
         ("wavelengths_nm", .arr wlj)]),
       ("lenses", .arr []), ("image_plane_x_mm", .num 0 0)]).isSome := by
  obtain ⟨wl, hwl⟩ := Option.isSome_iff_exists.mp (optionMapM_isSome jAsNum wlj hw)
  simp [validateOpticalDesign, validateSource, validateFieldPoint, validateInfinityField,
    optionMapM, reqNum, jAsNum, jAsStr, jAsArr, jAsObj, assocKey, hwl]

/-- C8 (witness): the amended statement at an empty wavelength list. -/
theorem wavelengths_unchecked_witness :
    (validateOpticalDesign
      [("source", .obj [("type", .str "infinity"),
         ("fields", .arr [.obj [("deg", .num 0 0)]]),
         ("wavelengths_nm", .arr [])]),
       ("lenses", .arr []), ("image_plane_x_mm", .num 0 0)]).isSome :=
  wavelengths_unchecked [] (by decide)

/-! ## Claim C9 -/

/-- C9 (confirmed): the chat endpoint's reply processing is total — for
every reply text it returns the `design` shape exactly when the (possibly
fence-extracted) text parses as JSON, with the parsed data unvalidated
against the schema, and the `text` shape exactly when it does not. -/
theorem chat_never_fails (raw : String) :
    (∃ j, loadsL (chat_response_text raw.data) = some j ∧
      chat_endpoint_tail raw = .design j (String.mk (chat_response_text raw.data))) ∨
    (loadsL (chat_response_text raw.data) = none ∧
      chat_endpoint_tail raw =
        .text (String.mk (chat_response_text raw.data))
          (String.mk (chat_response_text raw.data))) := by
  unfold chat_endpoint_tail
  cases h : loadsL (chat_response_text raw.data) with
  | some j => exact .inl ⟨j, rfl, by simp [h]⟩
  | none => exact .inr ⟨rfl, by simp [h]⟩

/-! ## Claim C10 -/

/-- C10 (confirmed): for content whose trim is non-empty, `set` persists
the content verbatim, yet a subsequent `get` returns the trimmed content:
`get` after `set` is `trim`, not the identity. -/
theorem set_then_get_trims (c : String) (fs : PromptFile)
    (h : pyStripStr c ≠ "") :
    update_system_prompt c fs = (.ok (), .present c) ∧
    get_stored_system_prompt (update_system_prompt c fs).2 = pyStripStr c := by
  unfold update_system_prompt save_system_prompt
  simp [h, get_stored_system_prompt]

/-- C10 (witness): a padded content round-trips to its trim. -/
theorem set_then_get_trims_witness :
    update_system_prompt "  hello  " .absent = (.ok (), .present "  hello  ") ∧
    get_stored_system_prompt (update_system_prompt "  hello  " .absent).2 =
      pyStripStr "  hello  " :=
  set_then_get_trims "  hello  " .absent (by decide)

/-! ## Round trip: the serializer's output parses back

The lemmas below culminate in `loadsL_jdumpL`: `json.loads` recovers any
value from its `json.dumps` serialization.  They feed claim C3. -/

theorem char_toNat_ofNat (n : Nat) (h : n.isValidChar) : (Char.ofNat n).toNat = n := by
  unfold Char.ofNat
  rw [dif_pos h]
  rfl

theorem valid_of_lt (n : Nat) (h : n < 0xd800) : n.isValidChar := Or.inl h

theorem digitToChar_toNat (d : Nat) (h : d < 10) : (digitToChar d).toNat = 48 + d :=
  char_toNat_ofNat _ (valid_of_lt _ (by omega))

theorem isDigitChar_digitToChar (d : Nat) (h : d < 10) :
    isDigitChar (digitToChar d) = true := by
  simp [isDigitChar, digitToChar_toNat d h]
  omega

theorem ne_of_toNat_ne {c d : Char} (h : c.toNat ≠ d.toNat) : c ≠ d :=
  fun he => h (congrArg Char.toNat he)

theorem isDigitChar_toNat {c : Char} (h : isDigitChar c = true) :
    48 ≤ c.toNat ∧ c.toNat ≤ 57 := by
  simpa [isDigitChar, Bool.and_eq_true, decide_eq_true_eq] using h

/-- A run of digit characters is consumed wholesale, folding into the
accumulator. -/
theorem digitRun_append (D : List Char) (hD : ∀ c ∈ D, isDigitChar c = true) :
    ∀ (rest : List Char) (acc cnt : Nat),
      digitRun (D ++ rest) acc cnt =
        digitRun rest (D.foldl (fun a c => a * 10 + (c.toNat - 48)) acc) (cnt + D.length) := by
  induction D with
  | nil => intro rest acc cnt; simp
  | cons c t ih =>
      intro rest acc cnt
      have hc := hD c (by simp)
      rw [List.cons_append, digitRun, if_pos hc,
        ih (fun x hx => hD x (by simp [hx])) rest _ _, List.foldl_cons, List.length_cons]
      have hcnt : cnt + 1 + t.length = cnt + (t.length + 1) := by omega
      rw [hcnt]

/-- A digit run stops at a non-digit (or the end). -/
theorem digitRun_stop (rest : List Char)
    (h : rest = [] ∨ ∃ c t, rest = c :: t ∧ isDigitChar c = false) (acc cnt : Nat) :
    digitRun rest acc cnt = (acc, cnt, rest) := by
  rcases h with rfl | ⟨c, t, rfl, hc⟩
  · rfl
  · rw [digitRun, if_neg (by simp [hc])]

/-- Folding digit characters equals the base-10 value of the digit list
(little-endian `Nat.ofDigits` of the reversed digits), shifted past the
accumulator. -/
theorem foldl_digitToChar (ds : List Nat) (hds : ∀ d ∈ ds, d < 10) :
    ∀ acc : Nat,
      (ds.map digitToChar).foldl (fun a c => a * 10 + (c.toNat - 48)) acc =
        acc * 10 ^ ds.length + Nat.ofDigits 10 ds.reverse := by
  induction ds with
  | nil => intro acc; simp [Nat.ofDigits]
  | cons d t ih =>
      intro acc
      have hd := hds d (by simp)
      rw [List.map_cons, List.foldl_cons, ih (fun x hx => hds x (by simp [hx])),
        digitToChar_toNat d hd]
      have h48 : 48 + d - 48 = d := by omega
      rw [h48, List.reverse_cons, Nat.ofDigits_append]
      simp [Nat.ofDigits]
      ring

/-- Shift an accumulator out of a digit fold. -/
theorem foldl_digits_shift (B : List Char) :
    ∀ a : Nat,
      B.foldl (fun x c => x * 10 + (c.toNat - 48)) a =
        a * 10 ^ B.length + B.foldl (fun x c => x * 10 + (c.toNat - 48)) 0 := by
  induction B with
  | nil => intro a; simp
  | cons c t ih =>
      intro a
      rw [List.foldl_cons, ih (a * 10 + (c.toNat - 48)), List.foldl_cons,
        ih (0 * 10 + (c.toNat - 48)), List.length_cons, pow_succ]
      ring

/-- Leading zero characters do not change the folded value. -/
theorem foldl_zeros (z : Nat) (D : List Char) :
    (List.replicate z '0' ++ D).foldl (fun a c => a * 10 + (c.toNat - 48)) 0 =
      D.foldl (fun a c => a * 10 + (c.toNat - 48)) 0 := by
  induction z with
  | zero => simp
  | succ n ih => simpa using ih

theorem natDigits_ne_nil (n : Nat) : natDigits n ≠ [] := by
  rw [natDigits_eq]
  split
  · simp
  · simp [Nat.digits_ne_nil_iff_ne_zero]
    intro h
    simp_all

theorem natDigits_all_digits (n : Nat) : ∀ c ∈ natDigits n, isDigitChar c = true := by
  rw [natDigits_eq]
  split
  · intro c hc
    simp at hc
    subst hc
    decide
  · intro c hc
    simp at hc
    obtain ⟨d, hd, rfl⟩ := hc
    exact isDigitChar_digitToChar d (Nat.digits_lt_base (by norm_num) hd)

/-- The folded value of `natDigits n` is `n`. -/
theorem natDigits_val (n : Nat) :
    (natDigits n).foldl (fun a c => a * 10 + (c.toNat - 48)) 0 = n := by
  rw [natDigits_eq]
  split
  · subst_vars; decide
  · rw [← List.map_reverse, foldl_digitToChar _
      (fun d hd => Nat.digits_lt_base (by norm_num) (List.mem_reverse.mp hd)),
      List.reverse_reverse]
    simp [Nat.ofDigits_digits]

/-- The first digit of a non-zero number's print is not `'0'`. -/
theorem natDigits_head_ne_zero (n : Nat) (hn : n ≠ 0) :
    ∃ c t, natDigits n = c :: t ∧ c ≠ '0' ∧ isDigitChar c = true := by
  rw [natDigits_eq, if_neg hn]
  have hne : Nat.digits 10 n ≠ [] := Nat.digits_ne_nil_iff_ne_zero.mpr hn
  have hrev : (Nat.digits 10 n).reverse ≠ [] := by simpa using hne
  obtain ⟨d, t', ht⟩ := List.exists_cons_of_ne_nil hrev
  have hd : d ∈ Nat.digits 10 n := by
    have hmem : d ∈ (Nat.digits 10 n).reverse := by simp [ht]
    simpa using hmem
  have hdlt : d < 10 := Nat.digits_lt_base (by norm_num) hd
  have hgl : (Nat.digits 10 n).getLast hne = d := by
    rw [List.getLast_eq_head_reverse hne]
    simp [ht]
  have hdne : d ≠ 0 := hgl ▸ Nat.getLast_digit_ne_zero 10 hn
  refine ⟨digitToChar d, t'.map digitToChar, ?_, ?_, isDigitChar_digitToChar d hdlt⟩
  · have hmr : ((Nat.digits 10 n).map digitToChar).reverse =
        ((Nat.digits 10 n).reverse).map digitToChar := by
      simp [List.map_reverse]
    rw [hmr, ht, List.map_cons]
  · intro he
    apply hdne
    have h2 := congrArg Char.toNat he
    rw [digitToChar_toNat d hdlt] at h2
    have h3 : (48 : Nat) + d = 48 := by simpa using h2
    omega

theorem parseExpTail_stop (m0 e0 : Nat) (rest : List Char) (h : numStop rest) :
    parseExpTail m0 e0 rest = some ((m0, e0), rest) := by
  cases rest with
  | nil => rfl
  | cons c t =>
      obtain ⟨-, -, he, hE⟩ := h
      simp only [parseExpTail]
      rw [if_neg (by tauto)]

theorem parseFracExp_stop (iv : Nat) (rest : List Char) (h : numStop rest) :
    parseFracExp iv rest = some ((iv, 0), rest) := by
  cases rest with
  | nil => simp [parseFracExp, parseExpTail]
  | cons c t =>
      obtain ⟨hd, hdot, he, hE⟩ := h
      simp only [parseFracExp]
      rw [if_neg hdot]
      exact parseExpTail_stop _ _ _ ⟨hd, hdot, he, hE⟩

theorem numPaddedDigits_all (a e : Nat) :
    ∀ c ∈ numPaddedDigits a e, isDigitChar c = true := by
  simp only [numPaddedDigits]
  split
  · intro c hc
    rcases List.mem_append.mp hc with h | h
    · rw [List.eq_of_mem_replicate h]; decide
    · exact natDigits_all_digits a c h
  · exact natDigits_all_digits a

theorem numPaddedDigits_length (a e : Nat) :
    e + 1 ≤ (numPaddedDigits a e).length := by
  have hnd : 1 ≤ (natDigits a).length :=
    List.length_pos.mpr (natDigits_ne_nil a)
  simp only [numPaddedDigits]
  split <;> simp_all <;> omega

theorem numPaddedDigits_val (a e : Nat) :
    (numPaddedDigits a e).foldl (fun x c => x * 10 + (c.toNat - 48)) 0 = a := by
  simp only [numPaddedDigits]
  split
  · rw [foldl_zeros]
    exact natDigits_val a
  · exact natDigits_val a

theorem numPaddedDigits_intpart (a e : Nat) (he : e ≠ 0) :
    (numPaddedDigits a e).take ((numPaddedDigits a e).length - e) = ['0'] ∨
    (∃ c t, (numPaddedDigits a e).take ((numPaddedDigits a e).length - e) = c :: t ∧
      c ≠ '0' ∧ isDigitChar c = true) := by
  simp only [numPaddedDigits]
  split
  · left
    rename_i hle
    have hnd : 1 ≤ (natDigits a).length := List.length_pos.mpr (natDigits_ne_nil a)
    have hlen : (List.replicate (e + 1 - (natDigits a).length) '0' ++ natDigits a).length
        = e + 1 := by simp; omega
    rw [hlen]
    have h1 : e + 1 - e = 1 := by omega
    rw [h1]
    have hz : 1 ≤ e + 1 - (natDigits a).length := by omega
    obtain ⟨z, hzz⟩ := Nat.exists_eq_add_of_le hz
    rw [hzz, List.replicate_add, List.replicate_one]
    simp
  · right
    rename_i hgt
    have hlen : e < (natDigits a).length := by omega
    have ha : a ≠ 0 := by
      intro h0
      subst h0
      have : natDigits 0 = ['0'] := by decide
      rw [this] at hlen
      simp at hlen
      omega
    obtain ⟨c, t, hct, hc0, hcd⟩ := natDigits_head_ne_zero a ha
    have hpos : 1 ≤ (natDigits a).length - e := by omega
    obtain ⟨z, hzz⟩ := Nat.exists_eq_add_of_le hpos
    refine ⟨c, t.take z, ?_, hc0, hcd⟩
    rw [hct] at hzz ⊢
    have h1z : 1 + z = z + 1 := by omega
    rw [hzz, h1z, List.take_succ_cons]

theorem numCore_head_digit (a e : Nat) :
    ∃ c t, numCore a e = c :: t ∧ isDigitChar c = true := by
  by_cases he : e = 0
  · subst he
    rw [numCore, if_pos rfl]
    obtain ⟨c, t, hct⟩ := List.exists_cons_of_ne_nil (natDigits_ne_nil a)
    exact ⟨c, t, hct, natDigits_all_digits a c (by rw [hct]; simp)⟩
  · rw [numCore, if_neg he]
    dsimp only
    rcases numPaddedDigits_intpart a e he with h0 | ⟨c, t, hct, -, hcd⟩
    · exact ⟨'0', _, by rw [h0]; rfl, by decide⟩
    · exact ⟨c, _, by rw [hct]; rfl, hcd⟩

theorem parseNumBody_core (b : Bool) (a e : Nat) (rest : List Char) (h : numStop rest) :
    parseNumBody b (numCore a e ++ rest) = some (mkNum b a e, rest) := by
  have hstopd : rest = [] ∨ ∃ c' t', rest = c' :: t' ∧ isDigitChar c' = false := by
    cases rest with
    | nil => exact .inl rfl
    | cons c' t' => exact .inr ⟨c', t', rfl, h.1⟩
  by_cases he : e = 0
  · subst he
    rw [numCore, if_pos rfl]
    by_cases ha : a = 0
    · subst ha
      have h0 : natDigits 0 = ['0'] := by decide
      rw [h0, List.cons_append, List.nil_append]
      simp only [parseNumBody, if_pos rfl]
      rw [parseFracExp_stop 0 rest h]
      rfl
    · obtain ⟨c, t, hct, hc0, hcd⟩ := natDigits_head_ne_zero a ha
      rw [hct, List.cons_append]
      simp only [parseNumBody]
      rw [if_neg hc0, if_pos hcd]
      have htd : ∀ x ∈ t, isDigitChar x = true := fun x hx =>
        natDigits_all_digits a x (by rw [hct]; simp [hx])
      rw [digitRun_append t htd rest _ 1, digitRun_stop rest hstopd _ _]
      have hval : t.foldl (fun x ch => x * 10 + (ch.toNat - 48)) (c.toNat - 48) = a := by
        have hv := natDigits_val a
        rw [hct] at hv
        simpa using hv
      rw [hval, parseFracExp_stop a rest h]
      rfl
  · rw [numCore, if_neg he]
    dsimp only
    have hsd := numPaddedDigits_all a e
    have hslen := numPaddedDigits_length a e
    have hsval := numPaddedDigits_val a e
    have hAB := List.take_append_drop
      ((numPaddedDigits a e).length - e) (numPaddedDigits a e)
    have hBlen : ((numPaddedDigits a e).drop ((numPaddedDigits a e).length - e)).length = e := by
      rw [List.length_drop]
      omega
    have hBd : ∀ x ∈ (numPaddedDigits a e).drop ((numPaddedDigits a e).length - e),
        isDigitChar x = true := fun x hx => hsd x (List.drop_subset _ _ hx)
    have hsplit :
        ((numPaddedDigits a e).take ((numPaddedDigits a e).length - e)).foldl
            (fun x c => x * 10 + (c.toNat - 48)) 0 * 10 ^ e +
          ((numPaddedDigits a e).drop ((numPaddedDigits a e).length - e)).foldl
            (fun x c => x * 10 + (c.toNat - 48)) 0 = a := by
      have h2 := foldl_digits_shift
        ((numPaddedDigits a e).drop ((numPaddedDigits a e).length - e))
        (((numPaddedDigits a e).take ((numPaddedDigits a e).length - e)).foldl
          (fun x c => x * 10 + (c.toNat - 48)) 0)
      rw [hBlen] at h2
      rw [← h2, ← List.foldl_append, hAB, hsval]
    have hfrac :
        parseFracExp (((numPaddedDigits a e).take ((numPaddedDigits a e).length - e)).foldl
            (fun x c => x * 10 + (c.toNat - 48)) 0)
          ('.' :: (numPaddedDigits a e).drop ((numPaddedDigits a e).length - e) ++ rest) =
          some ((a, e), rest) := by
      rw [List.cons_append]
      simp only [parseFracExp, if_true]
      rw [digitRun_append _ hBd rest 0 0, digitRun_stop rest hstopd _ _]
      dsimp only
      have hfc : 0 + ((numPaddedDigits a e).drop ((numPaddedDigits a e).length - e)).length
          = e := by rw [hBlen]; omega
      rw [hfc, if_neg he, parseExpTail_stop _ _ _ h, hsplit]
    rcases numPaddedDigits_intpart a e he with h0 | ⟨c, t, hct, hc0, hcd⟩
    · rw [h0] at hfrac ⊢
      have hA0 : ((['0'] : List Char).foldl (fun x c => x * 10 + (c.toNat - 48)) 0) = 0 := by
        decide
      rw [hA0] at hfrac
      simp only [List.cons_append, List.append_assoc, List.nil_append] at hfrac ⊢
      simp [parseNumBody, hfrac]
    · rw [hct] at hfrac ⊢
      simp only [List.cons_append, List.append_assoc, List.nil_append] at hfrac ⊢
      simp only [parseNumBody]
      rw [if_neg hc0, if_pos hcd]
      have htd₂ : ∀ x ∈ t, isDigitChar x = true := fun x hx => by
        have hmem : x ∈ (numPaddedDigits a e).take ((numPaddedDigits a e).length - e) := by
          rw [hct]; simp [hx]
        exact hsd x (List.take_subset _ _ hmem)
      rw [digitRun_append t htd₂ _ _ 1]
      rw [digitRun_stop
        ('.' :: ((numPaddedDigits a e).drop ((numPaddedDigits a e).length - e) ++ rest))
        (.inr ⟨'.', _, rfl, by decide⟩) _ _]
      dsimp only
      have hvalA : t.foldl (fun x ch => x * 10 + (ch.toNat - 48)) (c.toNat - 48) =
          ((numPaddedDigits a e).take ((numPaddedDigits a e).length - e)).foldl
            (fun x ch => x * 10 + (ch.toNat - 48)) 0 := by
        rw [hct]
        simp
      rw [hct] at hvalA
      rw [hvalA, hfrac]
      rfl

/-- A serialized JSON number parses back exactly, leaving any delimiter
untouched. -/
theorem parseNumber_numRepr (m : Int) (e : Nat) (rest : List Char) (h : numStop rest) :
    parseNumber (numRepr m e ++ rest) = some (.num m e, rest) := by
  rw [numRepr]
  by_cases hm : m < 0
  · rw [if_pos hm]
    simp only [List.cons_append, List.nil_append, List.append_assoc]
    simp only [parseNumber, if_pos rfl]
    rw [parseNumBody_core true m.natAbs e rest h]
    have hmk : mkNum true m.natAbs e = .num m e := by
      unfold mkNum
      rw [if_pos rfl]
      congr 1
      omega
    rw [hmk, if_true]
  · rw [if_neg hm, List.nil_append]
    obtain ⟨c, t, hct, hcd⟩ := numCore_head_digit m.natAbs e
    rw [hct, List.cons_append]
    have hc45 : c ≠ '-' := by
      obtain ⟨h1, h2⟩ := isDigitChar_toNat hcd
      intro hx
      subst hx
      exact absurd h1 (by decide)
    simp only [parseNumber]
    rw [if_neg hc45, ← List.cons_append, ← hct,
      parseNumBody_core false m.natAbs e rest h]
    have hmk : mkNum false m.natAbs e = .num m e := by
      unfold mkNum
      rw [if_neg (by simp)]
      congr 1
      omega
    rw [hmk]

theorem char_valid_nat (c : Char) :
    c.toNat < 0xd800 ∨ (0xe000 ≤ c.toNat ∧ c.toNat < 0x110000) := by
  have h := c.valid
  unfold UInt32.isValidChar Nat.isValidChar at h
  exact h

theorem hexVal_hexChar (d : Nat) (h : d < 16) : hexVal (hexChar d) = some d := by
  unfold hexChar
  by_cases h10 : d < 10
  · rw [if_pos h10]
    have ht : (Char.ofNat (48 + d)).toNat = 48 + d :=
      char_toNat_ofNat _ (valid_of_lt _ (by omega))
    unfold hexVal
    rw [ht, if_pos (show 48 ≤ 48 + d ∧ 48 + d ≤ 57 by omega)]
    congr 1
    omega
  · rw [if_neg h10]
    have ht : (Char.ofNat (87 + d)).toNat = 87 + d :=
      char_toNat_ofNat _ (valid_of_lt _ (by omega))
    unfold hexVal
    rw [ht, if_neg (show ¬(48 ≤ 87 + d ∧ 87 + d ≤ 57) by omega),
      if_pos (show 97 ≤ 87 + d ∧ 87 + d ≤ 102 by omega)]
    congr 1
    omega

theorem hex4val_toHex4 (n : Nat) (h : n < 65536) :
    hex4val (hexChar (n / 4096 % 16)) (hexChar (n / 256 % 16))
      (hexChar (n / 16 % 16)) (hexChar (n % 16)) = some n := by
  rw [hex4val, hexVal_hexChar _ (by omega), hexVal_hexChar _ (by omega),
    hexVal_hexChar _ (by omega), hexVal_hexChar _ (by omega)]
  simp
  omega

theorem parseEsc_u_eq (h1 h2 h3 h4 : Char) (rest2 : List Char) :
    parseEsc ('u' :: h1 :: h2 :: h3 :: h4 :: rest2) =
      (match hex4val h1 h2 h3 h4 with
       | some n => parseUHex n rest2
       | none => none) := rfl

/-- A `\uXXXX` escape of a plain BMP code point decodes to that
character. -/
theorem parseEsc_bmp (n : Nat) (hn : n < 0x10000) (hval : n < 0xd800 ∨ 0xdfff < n)
    (E : List Char) :
    parseEsc ('u' :: (toHex4 n ++ E)) = some (Char.ofNat n, E) := by
  have hsh : ('u' : Char) :: (toHex4 n ++ E) = 'u' :: hexChar (n / 4096 % 16) ::
      hexChar (n / 256 % 16) :: hexChar (n / 16 % 16) :: hexChar (n % 16) :: E := rfl
  rw [hsh, parseEsc_u_eq, hex4val_toHex4 n hn]
  show parseUHex n E = _
  simp only [parseUHex]
  rw [if_pos hval]

/-- An escaped surrogate pair decodes to the combined astral character. -/
theorem parseEsc_surrogate (hi lo : Nat) (hh1 : 0xd800 ≤ hi) (hh2 : hi ≤ 0xdbff)
    (hl1 : 0xdc00 ≤ lo) (hl2 : lo ≤ 0xdfff) (E : List Char) :
    parseEsc ('u' :: (toHex4 hi ++ ('\\' :: 'u' :: (toHex4 lo ++ E)))) =
      some (Char.ofNat (0x10000 + (hi - 0xd800) * 1024 + (lo - 0xdc00)), E) := by
  have hsh : ('u' : Char) :: (toHex4 hi ++ ('\\' :: 'u' :: (toHex4 lo ++ E))) =
      'u' :: hexChar (hi / 4096 % 16) :: hexChar (hi / 256 % 16) :: hexChar (hi / 16 % 16) ::
        hexChar (hi % 16) :: ('\\' :: 'u' :: (toHex4 lo ++ E)) := rfl
  rw [hsh, parseEsc_u_eq, hex4val_toHex4 hi (by omega)]
  show parseUHex hi ('\\' :: 'u' :: (toHex4 lo ++ E)) = _
  simp only [parseUHex]
  rw [if_neg (by omega), if_pos (by omega)]
  have hsh2 : ('\\' : Char) :: 'u' :: (toHex4 lo ++ E) = '\\' :: 'u' ::
      hexChar (lo / 4096 % 16) :: hexChar (lo / 256 % 16) :: hexChar (lo / 16 % 16) ::
      hexChar (lo % 16) :: E := rfl
  rw [hsh2]
  have hpair : parseSurrogatePair hi ('\\' :: 'u' :: hexChar (lo / 4096 % 16) ::
      hexChar (lo / 256 % 16) :: hexChar (lo / 16 % 16) :: hexChar (lo % 16) :: E) =
      (match hex4val (hexChar (lo / 4096 % 16)) (hexChar (lo / 256 % 16))
          (hexChar (lo / 16 % 16)) (hexChar (lo % 16)) with
       | some p =>
           if 0xdc00 ≤ p ∧ p ≤ 0xdfff then
             some (Char.ofNat (0x10000 + (hi - 0xd800) * 1024 + (p - 0xdc00)), E)
           else none
       | none => none) := rfl
  rw [hpair, hex4val_toHex4 lo (by omega)]
  have hred : (match some lo with
       | some p =>
           if 0xdc00 ≤ p ∧ p ≤ 0xdfff then
             some (Char.ofNat (0x10000 + (hi - 0xd800) * 1024 + (p - 0xdc00)), E)
           else none
       | none => none) =
      if 0xdc00 ≤ lo ∧ lo ≤ 0xdfff then
        some (Char.ofNat (0x10000 + (hi - 0xd800) * 1024 + (lo - 0xdc00)), E)
      else none := rfl
  rw [hred, if_pos ⟨hl1, hl2⟩]

/-- One parser step across a backslash escape. -/
theorem parseStr_esc_step (fuel : Nat) (R E s r : List Char) (d : Char)
    (hesc : parseEsc R = some (d, E))
    (hE : parseStr fuel E = some (s, r)) :
    parseStr (fuel + 1) ('\\' :: R) = some (d :: s, r) := by
  simp only [parseStr, if_true]
  rw [if_neg (show ¬('\\' : Char) = '"' by decide), hesc]
  dsimp only
  rw [hE]
  rfl

/-- A short escape (`\"`, `\\`, `\b`, `\f`, `\n`, `\r`, `\t`) re-parses
to the character it encodes. -/
theorem parseStr_short_escape (x d : Char)
    (hesc : ∀ E : List Char, parseEsc (x :: E) = some (d, E))
    (fuel : Nat) (E s r : List Char) (hE : parseStr fuel E = some (s, r)) :
    parseStr (fuel + 1) ('\\' :: x :: E) = some (d :: s, r) :=
  parseStr_esc_step fuel (x :: E) E s r d (hesc E) hE

/-- One escaped character re-parses to the character it encodes. -/
theorem parseStr_escape (c : Char) (fuel : Nat) (E s r : List Char)
    (hE : parseStr fuel E = some (s, r)) :
    parseStr (fuel + 1) (escapeChar c ++ E) = some (c :: s, r) := by
  unfold escapeChar
  by_cases h1 : c = '"'
  · rw [if_pos h1]
    subst h1
    exact parseStr_short_escape '"' '"' (fun E => rfl) fuel E s r hE
  · rw [if_neg h1]
    by_cases h2 : c = '\\'
    · rw [if_pos h2]
      subst h2
      exact parseStr_short_escape '\\' '\\' (fun E => rfl) fuel E s r hE
    · rw [if_neg h2]
      by_cases h3 : c = '\x08'
      · rw [if_pos h3]
        subst h3
        exact parseStr_short_escape 'b' '\x08' (fun E => rfl) fuel E s r hE
      · rw [if_neg h3]
        by_cases h4 : c = '\x0c'
        · rw [if_pos h4]
          subst h4
          exact parseStr_short_escape 'f' '\x0c' (fun E => rfl) fuel E s r hE
        · rw [if_neg h4]
          by_cases h5 : c = '\n'
          · rw [if_pos h5]
            subst h5
            exact parseStr_short_escape 'n' '\n' (fun E => rfl) fuel E s r hE
          · rw [if_neg h5]
            by_cases h6 : c = '\r'
            · rw [if_pos h6]
              subst h6
              exact parseStr_short_escape 'r' '\r' (fun E => rfl) fuel E s r hE
            · rw [if_neg h6]
              by_cases h7 : c = '\t'
              · rw [if_pos h7]
                subst h7
                exact parseStr_short_escape 't' '\t' (fun E => rfl) fuel E s r hE
              · rw [if_neg h7]
                by_cases h8 : 0x20 ≤ c.toNat ∧ c.toNat ≤ 0x7e
                · rw [if_pos h8]
                  rw [List.cons_append, List.nil_append]
                  simp only [parseStr]
                  rw [if_neg h1, if_neg h2, if_neg (show ¬c.toNat < 0x20 by omega), hE]
                  rfl
                · rw [if_neg h8]
                  by_cases h9 : c.toNat < 0x10000
                  · rw [if_pos h9]
                    have hval := char_valid_nat c
                    have hesc := parseEsc_bmp c.toNat (by omega) (by omega) E
                    rw [Char.ofNat_toNat] at hesc
                    simp only [List.cons_append, List.append_assoc]
                    exact parseStr_esc_step fuel _ E s r c hesc hE
                  · rw [if_neg h9]
                    have hval := char_valid_nat c
                    have hv : c.toNat - 0x10000 < 0x100000 := by omega
                    have hdiv : (c.toNat - 0x10000) / 1024 < 1024 := by omega
                    have hmod : (c.toNat - 0x10000) % 1024 < 1024 := by omega
                    have hesc := parseEsc_surrogate (0xd800 + (c.toNat - 0x10000) / 1024)
                      (0xdc00 + (c.toNat - 0x10000) % 1024) (by omega) (by omega)
                      (by omega) (by omega) E
                    have hcomb : 0x10000 +
                        (0xd800 + (c.toNat - 0x10000) / 1024 - 0xd800) * 1024 +
                        (0xdc00 + (c.toNat - 0x10000) % 1024 - 0xdc00) = c.toNat := by
                      have hdm := Nat.div_add_mod (c.toNat - 0x10000) 1024
                      omega
                    rw [hcomb, Char.ofNat_toNat] at hesc
                    simp only [List.cons_append, List.append_assoc]
                    exact parseStr_esc_step fuel _ E s r c hesc hE

/-- A fully escaped character list re-parses to itself up to the closing
quote, under any sufficient fuel. -/
theorem parseStr_flatMap (s : List Char) :
    ∀ (E : List Char) (fuel : Nat), s.length + 1 ≤ fuel →
      parseStr fuel (s.flatMap escapeChar ++ '"' :: E) = some (s, E) := by
  induction s with
  | nil =>
      intro E fuel hf
      obtain ⟨f, rfl⟩ := Nat.exists_eq_add_of_le hf
      simp only [List.flatMap_nil, List.nil_append]
      rw [Nat.add_comm]
      simp only [parseStr, if_true]
  | cons c t ih =>
      intro E fuel hf
      obtain ⟨f, hfe⟩ := Nat.exists_eq_add_of_le (show t.length + 1 + 1 ≤ fuel by
        simpa [Nat.add_comm, Nat.add_assoc, Nat.add_left_comm] using hf)
      rw [List.flatMap_cons, List.append_assoc]
      have hstep : fuel = (t.length + 1 + f) + 1 := by omega
      rw [hstep]
      exact parseStr_escape c (t.length + 1 + f) _ t E
        (by
          have := ih E (t.length + 1 + f) (by omega)
          exact this)

theorem restOk_numStop (rest : List Char) (h : restOk rest) : numStop rest := by
  rcases h with rfl | ⟨c, t, rfl, hc⟩
  · trivial
  · rcases hc with rfl | rfl | rfl <;> exact ⟨by decide, by decide, by decide, by decide⟩

theorem skipWs_eq_self (cs : List Char)
    (h : cs = [] ∨ ∃ c t, cs = c :: t ∧ jsonWs c = false) : skipWs cs = cs := by
  rcases h with rfl | ⟨c, t, rfl, hc⟩
  · rfl
  · simp [skipWs, List.dropWhile_cons, hc]

theorem skipWs_space_cons (R : List Char) (h : skipWs R = R) : skipWs (' ' :: R) = R := by
  rw [skipWs, List.dropWhile_cons, if_pos (by decide)]
  exact h

/-- The first character of a serialized value: never whitespace, never a
separator or closer, and never `']'`. -/
theorem jdumpL_head (j : Json) :
    ∃ c t, jdumpL j = c :: t ∧ jsonWs c = false ∧ pyWs c = false ∧
      c ≠ ']' ∧ c ≠ Char.ofNat 125 ∧ c ≠ ',' := by
  cases j with
  | null => exact ⟨'n', _, rfl, by decide, by decide, by decide, by decide, by decide⟩
  | bool b =>
      cases b with
      | true => exact ⟨'t', _, rfl, by decide, by decide, by decide, by decide, by decide⟩
      | false => exact ⟨'f', _, rfl, by decide, by decide, by decide, by decide, by decide⟩
  | num m e =>
      rw [show jdumpL (.num m e) = numRepr m e from rfl, numRepr]
      by_cases hm : m < 0
      · rw [if_pos hm]
        exact ⟨'-', _, rfl, by decide, by decide, by decide, by decide, by decide⟩
      · rw [if_neg hm, List.nil_append]
        obtain ⟨c, t, hct, hcd⟩ := numCore_head_digit m.natAbs e
        obtain ⟨hlo, hhi⟩ := isDigitChar_toNat hcd
        refine ⟨c, t, hct, ?_, ?_, ?_, ?_, ?_⟩
        · simp only [jsonWs, Bool.or_eq_false_iff, decide_eq_false_iff_not]
          refine ⟨⟨⟨?_, ?_⟩, ?_⟩, ?_⟩ <;> exact ne_of_toNat_ne (by simp; omega)
        · simp only [pyWs, Bool.or_eq_false_iff, decide_eq_false_iff_not]
          refine ⟨⟨⟨⟨⟨?_, ?_⟩, ?_⟩, ?_⟩, ?_⟩, ?_⟩ <;> exact ne_of_toNat_ne (by simp; omega)
        · exact ne_of_toNat_ne (by simp; omega)
        · exact ne_of_toNat_ne (by simp; omega)
        · exact ne_of_toNat_ne (by simp; omega)
  | str s => exact ⟨'"', _, rfl, by decide, by decide, by decide, by decide, by decide⟩
  | arr xs =>
      cases xs <;>
        exact ⟨'[', _, rfl, by decide, by decide, by decide, by decide, by decide⟩
  | obj kvs =>
      cases kvs <;>
        exact ⟨Char.ofNat 123, _, rfl, by decide, by decide, by decide, by decide, by decide⟩

/-! ### One-step unfolding equations for the mutual parser -/

theorem parseVal_quote (f : Nat) (t : List Char) :
    parseVal (f + 1) ('"' :: t) =
      (parseStr (t.length + 1) t).map fun p => (Json.str (String.mk p.1), p.2) := rfl

theorem parseVal_lbracket (f : Nat) (t : List Char) :
    parseVal (f + 1) ('[' :: t) =
      (match skipWs t with
       | [] => none
       | c2 :: r =>
           if c2 = ']' then some (.arr [], r)
           else (parseElems f (c2 :: r)).map fun p => (Json.arr p.1, p.2)) := rfl

theorem parseVal_lbrace (f : Nat) (t : List Char) :
    parseVal (f + 1) (Char.ofNat 123 :: t) =
      (match skipWs t with
       | c2 :: r =>
           if c2 = Char.ofNat 125 then some (.obj [], r)
           else (parseMembers f (c2 :: r)).map fun p => (Json.obj p.1, p.2)
       | [] => none) := rfl

theorem digit_or_minus_ne (c d : Char) (h : c = '-' ∨ isDigitChar c = true)
    (hd45 : d.toNat ≠ 45) (hdig : d.toNat < 48 ∨ 57 < d.toNat) : c ≠ d := by
  rcases h with rfl | h
  · exact ne_of_toNat_ne (by rw [show ('-' : Char).toNat = 45 from rfl]; omega)
  · obtain ⟨h1, h2⟩ := isDigitChar_toNat h
    exact ne_of_toNat_ne (by omega)

theorem parseVal_num_dispatch (f : Nat) (c : Char) (t : List Char)
    (h : c = '-' ∨ isDigitChar c = true) :
    parseVal (f + 1) (c :: t) = parseNumber (c :: t) := by
  have h1 : c ≠ '"' := digit_or_minus_ne c '"' h (by decide) (by decide)
  have h2 : c ≠ '[' := digit_or_minus_ne c '[' h (by decide) (by decide)
  have h3 : c ≠ Char.ofNat 123 := digit_or_minus_ne c (Char.ofNat 123) h (by decide) (by decide)
  have h4 : c ≠ 't' := digit_or_minus_ne c 't' h (by decide) (by decide)
  have h5 : c ≠ 'f' := digit_or_minus_ne c 'f' h (by decide) (by decide)
  have h6 : c ≠ 'n' := digit_or_minus_ne c 'n' h (by decide) (by decide)
  simp only [parseVal]
  rw [if_neg h1, if_neg h2, if_neg h3, if_neg h4, if_neg h5, if_neg h6, if_pos h]

theorem parseElems_step_last (f : Nat) (v : Json) (rest cs : List Char)
    (hval : parseVal f cs = some (v, ']' :: rest)) :
    parseElems (f + 1) cs = some ([v], rest) := by
  simp only [parseElems]
  rw [hval]
  rfl

theorem parseElems_step_comma (f : Nat) (v : Json) (X cs : List Char)
    (hval : parseVal f cs = some (v, ',' :: ' ' :: X)) :
    parseElems (f + 1) cs = (parseElems f (skipWs (' ' :: X))).map fun p => (v :: p.1, p.2) := by
  simp only [parseElems]
  rw [hval]
  rfl

theorem jcost_pos (j : Json) : 1 ≤ jcost j := by
  cases j with
  | arr xs => cases xs <;> simp [jcost]
  | obj kvs => cases kvs <;> simp [jcost]
  | _ => simp [jcost]

theorem parseMembers_quote (f : Nat) (T : List Char) :
    parseMembers (f + 1) ('"' :: T) =
      (match parseStr (T.length + 1) T with
       | none => none
       | some (k, rest) =>
           match skipWs rest with
           | ':' :: r =>
               match parseVal f (skipWs r) with
               | none => none
               | some (v, rest2) =>
                   match skipWs rest2 with
                   | c :: r2 =>
                       if c = ',' then
                         (parseMembers f (skipWs r2)).map fun p =>
                           ((String.mk k, v) :: p.1, p.2)
                       else if c = Char.ofNat 125 then some ([(String.mk k, v)], r2)
                       else none
                   | [] => none
           | _ => none) := rfl

theorem parseMembers_step (f : Nat) (T kd VR rest2 : List Char) (v : Json)
    (hkey : parseStr (T.length + 1) T = some (kd, ':' :: ' ' :: VR))
    (hws : skipWs VR = VR)
    (hval : parseVal f VR = some (v, rest2)) :
    parseMembers (f + 1) ('"' :: T) =
      (match skipWs rest2 with
       | c :: r2 =>
           if c = ',' then
             (parseMembers f (skipWs r2)).map fun p => ((String.mk kd, v) :: p.1, p.2)
           else if c = Char.ofNat 125 then some ([(String.mk kd, v)], r2)
           else none
       | [] => none) := by
  rw [parseMembers_quote, hkey]
  show (match parseVal f (skipWs VR) with
        | none => none
        | some (v, rest2) =>
            match skipWs rest2 with
            | c :: r2 =>
                if c = ',' then
                  (parseMembers f (skipWs r2)).map
                    fun p : List (String × Json) × List Char =>
                      ((String.mk kd, v) :: p.1, p.2)
                else if c = Char.ofNat 125 then some ([(String.mk kd, v)], r2)
                else none
            | [] => none) =
      (match skipWs rest2 with
       | c :: r2 =>
           if c = ',' then
             (parseMembers f (skipWs r2)).map fun p => ((String.mk kd, v) :: p.1, p.2)
           else if c = Char.ofNat 125 then some ([(String.mk kd, v)], r2)
           else none
       | [] => none)
  rw [hws, hval]

theorem escapeChar_length_pos (c : Char) : 1 ≤ (escapeChar c).length := by
  unfold escapeChar
  repeat' split
  all_goals simp

theorem length_le_flatMap_escapeChar (s : List Char) :
    s.length ≤ (s.flatMap escapeChar).length := by
  induction s with
  | nil => simp
  | cons c t ih =>
      rw [List.flatMap_cons, List.length_append, List.length_cons]
      have := escapeChar_length_pos c
      omega

/-- Parsing the serialized items of a non-empty array consumes them all,
up to the closing bracket. -/
theorem parseElems_jdumpItems (N : Nat)
    (ihN : ∀ j : Json, sizeOf j ≤ N → ∀ (fuel : Nat) (rest : List Char),
      jcost j ≤ fuel → restOk rest →
      parseVal fuel (jdumpL j ++ rest) = some (j, rest)) :
    ∀ (ys : List Json), (∀ y ∈ ys, sizeOf y ≤ N) →
      ∀ (fuel : Nat) (rest : List Char), jcostElems ys ≤ fuel → ys ≠ [] → restOk rest →
        parseElems fuel (jdumpItems ys ++ ']' :: rest) = some (ys, rest) := by
  intro ys
  induction ys with
  | nil => intro _ _ _ _ hne _; exact absurd rfl hne
  | cons x xs ih =>
      intro hsz fuel rest hc _ hr
      cases xs with
      | nil =>
          simp only [jcostElems] at hc
          cases fuel with
          | zero => omega
          | succ f =>
              rw [show jdumpItems [x] = jdumpL x from rfl]
              exact parseElems_step_last f x rest _
                (ihN x (hsz x (by simp)) f (']' :: rest) (by omega)
                  (Or.inr ⟨']', rest, rfl, Or.inr (Or.inl rfl)⟩))
      | cons y t =>
          simp only [jcostElems] at hc
          cases fuel with
          | zero => omega
          | succ f =>
              have hitems : jdumpItems (x :: y :: t) ++ ']' :: rest =
                  jdumpL x ++ (',' :: ' ' :: (jdumpItems (y :: t) ++ ']' :: rest)) := by
                rw [show jdumpItems (x :: y :: t) =
                  jdumpL x ++ (',' :: ' ' :: jdumpItems (y :: t)) from rfl]
                simp [List.append_assoc]
              rw [hitems]
              rw [parseElems_step_comma f x (jdumpItems (y :: t) ++ ']' :: rest) _
                (ihN x (hsz x (by simp)) f _ (by omega)
                  (Or.inr ⟨',', _, rfl, Or.inl rfl⟩))]
              have hdec : ∃ R, jdumpItems (y :: t) = jdumpL y ++ R := by
                cases t with
                | nil => exact ⟨[], by simp [jdumpItems]⟩
                | cons z zs => exact ⟨',' :: ' ' :: jdumpItems (z :: zs), rfl⟩
              obtain ⟨R, hR⟩ := hdec
              obtain ⟨cy, ty, hcy, hwsy, -, -, -, -⟩ := jdumpL_head y
              have hXw : skipWs (jdumpItems (y :: t) ++ ']' :: rest) =
                  jdumpItems (y :: t) ++ ']' :: rest := by
                apply skipWs_eq_self
                refine Or.inr ⟨cy, ty ++ R ++ ']' :: rest, ?_, hwsy⟩
                rw [hR, hcy]
                simp [List.append_assoc]
              rw [skipWs_space_cons _ hXw]
              rw [ih (fun z hz => hsz z (List.mem_cons_of_mem _ hz)) f rest (by omega)
                (by simp) hr]
              rfl

/-- Parsing the serialized members of a non-empty object consumes them
all, including the closing brace. -/
theorem parseMembers_jdumpMembers (N : Nat)
    (ihN : ∀ j : Json, sizeOf j ≤ N → ∀ (fuel : Nat) (rest : List Char),
      jcost j ≤ fuel → restOk rest →
      parseVal fuel (jdumpL j ++ rest) = some (j, rest)) :
    ∀ (ps : List (String × Json)), (∀ p ∈ ps, sizeOf p.2 ≤ N) →
      ∀ (fuel : Nat) (rest : List Char), jcostMembers ps ≤ fuel → ps ≠ [] → restOk rest →
        parseMembers fuel (jdumpMembers ps ++ Char.ofNat 125 :: rest) = some (ps, rest) := by
  intro ps
  induction ps with
  | nil => intro _ _ _ _ hne _; exact absurd rfl hne
  | cons kv xs ih =>
      obtain ⟨k, v⟩ := kv
      intro hsz fuel rest hc _ hr
      obtain ⟨cv, tv, hcv, hwsv, -, -, -, -⟩ := jdumpL_head v
      cases xs with
      | nil =>
          have hc' : 1 + jcost v ≤ fuel := by simpa [jcostMembers] using hc
          cases fuel with
          | zero => omega
          | succ f =>
              have hT : jdumpMembers [(k, v)] ++ Char.ofNat 125 :: rest =
                  '"' :: (k.data.flatMap escapeChar ++
                    '"' :: (':' :: ' ' :: (jdumpL v ++ Char.ofNat 125 :: rest))) := by
                rw [show jdumpMembers [(k, v)] = strRepr k ++ ':' :: ' ' :: jdumpL v from rfl,
                  strRepr]
                simp [List.append_assoc]
              rw [hT]
              have hbound : k.data.length + 1 ≤
                  (k.data.flatMap escapeChar ++
                    '"' :: (':' :: ' ' :: (jdumpL v ++ Char.ofNat 125 :: rest))).length + 1 := by
                have h1 := length_le_flatMap_escapeChar k.data
                rw [List.length_append, List.length_cons]
                omega
              have hkey := parseStr_flatMap k.data
                (':' :: ' ' :: (jdumpL v ++ Char.ofNat 125 :: rest)) _ hbound
              have hws : skipWs (jdumpL v ++ Char.ofNat 125 :: rest) =
                  jdumpL v ++ Char.ofNat 125 :: rest := by
                apply skipWs_eq_self
                refine Or.inr ⟨cv, tv ++ Char.ofNat 125 :: rest, ?_, hwsv⟩
                rw [hcv]; simp
              have hval := ihN v (hsz (k, v) (by simp)) f (Char.ofNat 125 :: rest)
                (by omega) (Or.inr ⟨Char.ofNat 125, rest, rfl, Or.inr (Or.inr rfl)⟩)
              rw [parseMembers_step f _ k.data _ _ v hkey hws hval]
              rfl
      | cons y t =>
          have hc' : 1 + jcost v + jcostMembers (y :: t) ≤ fuel := by
            simpa [jcostMembers] using hc
          cases fuel with
          | zero => omega
          | succ f =>
              have hT : jdumpMembers ((k, v) :: y :: t) ++ Char.ofNat 125 :: rest =
                  '"' :: (k.data.flatMap escapeChar ++
                    '"' :: (':' :: ' ' :: (jdumpL v ++
                      ',' :: ' ' :: (jdumpMembers (y :: t) ++ Char.ofNat 125 :: rest)))) := by
                rw [show jdumpMembers ((k, v) :: y :: t) =
                  strRepr k ++ ':' :: ' ' :: jdumpL v ++
                    ',' :: ' ' :: jdumpMembers (y :: t) from rfl, strRepr]
                simp [List.append_assoc]
              rw [hT]
              have hbound : k.data.length + 1 ≤
                  (k.data.flatMap escapeChar ++
                    '"' :: (':' :: ' ' :: (jdumpL v ++
                      ',' :: ' ' :: (jdumpMembers (y :: t) ++
                        Char.ofNat 125 :: rest)))).length + 1 := by
                have h1 := length_le_flatMap_escapeChar k.data
                rw [List.length_append, List.length_cons]
                omega
              have hkey := parseStr_flatMap k.data
                (':' :: ' ' :: (jdumpL v ++
                  ',' :: ' ' :: (jdumpMembers (y :: t) ++ Char.ofNat 125 :: rest))) _ hbound
              have hws : skipWs (jdumpL v ++
                  ',' :: ' ' :: (jdumpMembers (y :: t) ++ Char.ofNat 125 :: rest)) =
                  jdumpL v ++ ',' :: ' ' :: (jdumpMembers (y :: t) ++ Char.ofNat 125 :: rest) := by
                apply skipWs_eq_self
                refine Or.inr ⟨cv, tv ++ ',' :: ' ' :: (jdumpMembers (y :: t) ++
                  Char.ofNat 125 :: rest), ?_, hwsv⟩
                rw [hcv]; simp
              have hval := ihN v (hsz (k, v) (by simp)) f
                (',' :: ' ' :: (jdumpMembers (y :: t) ++ Char.ofNat 125 :: rest))
                (by omega) (Or.inr ⟨',', _, rfl, Or.inl rfl⟩)
              rw [parseMembers_step f _ k.data _ _ v hkey hws hval]
              show (parseMembers f
                  (skipWs (' ' :: (jdumpMembers (y :: t) ++ Char.ofNat 125 :: rest)))).map
                  (fun p => ((String.mk k.data, v) :: p.1, p.2)) = _
              have hdec : ∃ R, jdumpMembers (y :: t) = '"' :: R := by
                obtain ⟨k2, v2⟩ := y
                cases t with
                | nil =>
                    exact ⟨k2.data.flatMap escapeChar ++ ['"'] ++ ':' :: ' ' :: jdumpL v2, rfl⟩
                | cons z zs =>
                    exact ⟨(k2.data.flatMap escapeChar ++ ['"'] ++ ':' :: ' ' :: jdumpL v2) ++
                      ',' :: ' ' :: jdumpMembers (z :: zs), rfl⟩
              obtain ⟨R, hR⟩ := hdec
              have hXw : skipWs (jdumpMembers (y :: t) ++ Char.ofNat 125 :: rest) =
                  jdumpMembers (y :: t) ++ Char.ofNat 125 :: rest := by
                apply skipWs_eq_self
                refine Or.inr ⟨'"', R ++ Char.ofNat 125 :: rest, ?_, by decide⟩
                rw [hR]; simp
              rw [skipWs_space_cons _ hXw]
              rw [ih (fun p hp => hsz p (List.mem_cons_of_mem _ hp)) f rest (by omega)
                (by simp) hr]
              rfl

theorem parseVal_arr_step (f : Nat) (c : Char) (X : List Char)
    (hws : jsonWs c = false) (hne : c ≠ ']') :
    parseVal (f + 1) ('[' :: c :: X) =
      (parseElems f (c :: X)).map fun p => (Json.arr p.1, p.2) := by
  rw [parseVal_lbracket, skipWs_eq_self _ (Or.inr ⟨c, X, rfl, hws⟩)]
  show (if c = ']' then some (Json.arr [], X)
        else (parseElems f (c :: X)).map fun p => (Json.arr p.1, p.2)) = _
  rw [if_neg hne]

theorem parseVal_obj_step (f : Nat) (c : Char) (X : List Char)
    (hws : jsonWs c = false) (hne : c ≠ Char.ofNat 125) :
    parseVal (f + 1) (Char.ofNat 123 :: c :: X) =
      (parseMembers f (c :: X)).map fun p => (Json.obj p.1, p.2) := by
  rw [parseVal_lbrace, skipWs_eq_self _ (Or.inr ⟨c, X, rfl, hws⟩)]
  show (if c = Char.ofNat 125 then some (Json.obj [], X)
        else (parseMembers f (c :: X)).map fun p => (Json.obj p.1, p.2)) = _
  rw [if_neg hne]

/-- Round trip of the parser over the serializer: a serialized value
followed by a legal continuation parses back to the value, given enough
fuel. -/
theorem parseVal_jdumpL_aux (N : Nat) :
    ∀ j : Json, sizeOf j ≤ N →
      ∀ (fuel : Nat) (rest : List Char), jcost j ≤ fuel → restOk rest →
        parseVal fuel (jdumpL j ++ rest) = some (j, rest) := by
  induction N with
  | zero =>
      intro j hj
      exfalso
      cases j <;> simp at hj
  | succ N ih =>
      intro j hj fuel rest hc hr
      cases j with
      | null =>
          cases fuel with
          | zero => simp [jcost] at hc
          | succ f => rfl
      | bool b =>
          cases fuel with
          | zero => simp [jcost] at hc
          | succ f => cases b <;> rfl
      | num m e =>
          cases fuel with
          | zero => simp [jcost] at hc
          | succ f =>
              have hnum := parseNumber_numRepr m e rest (restOk_numStop rest hr)
              rw [show jdumpL (.num m e) = numRepr m e from rfl]
              by_cases hm : m < 0
              · have h1 : numRepr m e ++ rest = '-' :: (numCore m.natAbs e ++ rest) := by
                  rw [numRepr, if_pos hm]; simp
                rw [h1, parseVal_num_dispatch f '-' _ (Or.inl rfl), ← h1, hnum]
              · obtain ⟨c, t, hct, hcd⟩ := numCore_head_digit m.natAbs e
                have h1 : numRepr m e ++ rest = c :: (t ++ rest) := by
                  rw [numRepr, if_neg hm, List.nil_append, hct]; simp
                rw [h1, parseVal_num_dispatch f c _ (Or.inr hcd), ← h1, hnum]
      | str s =>
          cases fuel with
          | zero => simp [jcost] at hc
          | succ f =>
              have h1 : jdumpL (.str s) ++ rest =
                  '"' :: (s.data.flatMap escapeChar ++ '"' :: rest) := by
                rw [show jdumpL (.str s) = strRepr s from rfl, strRepr]
                simp [List.append_assoc]
              rw [h1, parseVal_quote]
              rw [parseStr_flatMap s.data rest _ (by
                have := length_le_flatMap_escapeChar s.data
                rw [List.length_append, List.length_cons]
                omega)]
              rfl
      | arr xs =>
          cases xs with
          | nil =>
              cases fuel with
              | zero => simp [jcost] at hc
              | succ f => rfl
          | cons x xs' =>
              have hc' : 1 + jcostElems (x :: xs') ≤ fuel := by simpa [jcost] using hc
              cases fuel with
              | zero => omega
              | succ f =>
                  have hsz : ∀ y ∈ x :: xs', sizeOf y ≤ N := by
                    intro y hy
                    have h1 := List.sizeOf_lt_of_mem hy
                    have h2 : sizeOf (Json.arr (x :: xs')) = 1 + sizeOf (x :: xs') := by simp
                    omega
                  obtain ⟨R, hR⟩ : ∃ R, jdumpItems (x :: xs') = jdumpL x ++ R := by
                    cases xs' with
                    | nil => exact ⟨[], by simp [jdumpItems]⟩
                    | cons z zs => exact ⟨',' :: ' ' :: jdumpItems (z :: zs), rfl⟩
                  obtain ⟨cx, tx, hcx, hwsx, -, hnex, -, -⟩ := jdumpL_head x
                  have hform : jdumpItems (x :: xs') ++ ']' :: rest =
                      cx :: (tx ++ (R ++ ']' :: rest)) := by
                    rw [hR, hcx]; simp [List.append_assoc]
                  have htext : jdumpL (.arr (x :: xs')) ++ rest =
                      '[' :: cx :: (tx ++ (R ++ ']' :: rest)) := by
                    rw [show jdumpL (.arr (x :: xs')) =
                      '[' :: (jdumpItems (x :: xs') ++ [']']) from rfl]
                    rw [← hform]
                    simp [List.append_assoc]
                  rw [htext, parseVal_arr_step f cx _ hwsx hnex, ← hform]
                  rw [parseElems_jdumpItems N ih (x :: xs') hsz f rest (by omega) (by simp) hr]
                  rfl
      | obj kvs =>
          cases kvs with
          | nil =>
              cases fuel with
              | zero => simp [jcost] at hc
              | succ f => rfl
          | cons kv kvs' =>
              have hc' : 1 + jcostMembers (kv :: kvs') ≤ fuel := by simpa [jcost] using hc
              cases fuel with
              | zero => omega
              | succ f =>
                  have hsz : ∀ p ∈ kv :: kvs', sizeOf p.2 ≤ N := by
                    intro p hp
                    have h1 := List.sizeOf_lt_of_mem hp
                    have h2 : sizeOf (Json.obj (kv :: kvs')) = 1 + sizeOf (kv :: kvs') := by
                      simp
                    have h3 : sizeOf p = 1 + sizeOf p.1 + sizeOf p.2 := by
                      obtain ⟨a, b⟩ := p; simp
                    omega
                  obtain ⟨R, hR⟩ : ∃ R, jdumpMembers (kv :: kvs') = '"' :: R := by
                    obtain ⟨k2, v2⟩ := kv
                    cases kvs' with
                    | nil =>
                        exact ⟨k2.data.flatMap escapeChar ++ ['"'] ++
                          ':' :: ' ' :: jdumpL v2, rfl⟩
                    | cons z zs =>
                        exact ⟨(k2.data.flatMap escapeChar ++ ['"'] ++
                          ':' :: ' ' :: jdumpL v2) ++
                          ',' :: ' ' :: jdumpMembers (z :: zs), rfl⟩
                  have hform : jdumpMembers (kv :: kvs') ++ Char.ofNat 125 :: rest =
                      '"' :: (R ++ Char.ofNat 125 :: rest) := by
                    rw [hR]; simp
                  have htext : jdumpL (.obj (kv :: kvs')) ++ rest =
                      Char.ofNat 123 :: '"' :: (R ++ Char.ofNat 125 :: rest) := by
                    rw [show jdumpL (.obj (kv :: kvs')) =
                      Char.ofNat 123 :: (jdumpMembers (kv :: kvs') ++ [Char.ofNat 125]) from rfl]
                    rw [← hform]
                    simp [List.append_assoc]
                  rw [htext, parseVal_obj_step f '"' _ (by decide) (by decide), ← hform]
                  rw [parseMembers_jdumpMembers N ih (kv :: kvs') hsz f rest (by omega)
                    (by simp) hr]
                  rfl

theorem parseVal_jdumpL (j : Json) (fuel : Nat) (rest : List Char)
    (hc : jcost j ≤ fuel) (hr : restOk rest) :
    parseVal fuel (jdumpL j ++ rest) = some (j, rest) :=
  parseVal_jdumpL_aux (sizeOf j) j le_rfl fuel rest hc hr

theorem json_sizeOf_pos (j : Json) : 1 ≤ sizeOf j := by
  cases j <;> (simp; try omega)

/-- The parser-call budget of a value is covered by the length of its
serialization. -/
theorem jcost_le_length_aux (N : Nat) :
    (∀ j : Json, sizeOf j ≤ N → jcost j ≤ (jdumpL j).length) ∧
    (∀ ys : List Json, sizeOf ys ≤ N → jcostElems ys ≤ (jdumpItems ys).length + 1) ∧
    (∀ ps : List (String × Json), sizeOf ps ≤ N →
      jcostMembers ps ≤ (jdumpMembers ps).length + 1) := by
  induction N with
  | zero =>
      refine ⟨fun j hj => absurd hj (by cases j <;> simp),
        fun ys hy => absurd hy (by cases ys <;> simp),
        fun ps hp => absurd hp (by cases ps <;> simp)⟩
  | succ N ih =>
      obtain ⟨ihj, ihe, ihm⟩ := ih
      refine ⟨fun j hj => ?_, fun ys hy => ?_, fun ps hp => ?_⟩
      · cases j with
        | num m e =>
            obtain ⟨c, t, hct, -, -, -, -, -⟩ := jdumpL_head (.num m e)
            rw [hct]
            simp [jcost]
        | str s =>
            obtain ⟨c, t, hct, -, -, -, -, -⟩ := jdumpL_head (.str s)
            rw [hct]
            simp [jcost]
        | arr xs =>
            cases xs with
            | nil => simp [jcost, jdumpL, jdumpItems]
            | cons x xs' =>
                have h1 : sizeOf (x :: xs') ≤ N := by
                  have : sizeOf (Json.arr (x :: xs')) = 1 + sizeOf (x :: xs') := by simp
                  omega
                have h2 := ihe (x :: xs') h1
                rw [show jcost (.arr (x :: xs')) = 1 + jcostElems (x :: xs') from rfl,
                  show jdumpL (.arr (x :: xs')) = '[' :: (jdumpItems (x :: xs') ++ [']'])
                    from rfl]
                rw [List.length_cons, List.length_append]
                simp only [List.length_singleton]
                omega
        | obj kvs =>
            cases kvs with
            | nil => simp [jcost, jdumpL, jdumpMembers]
            | cons kv kvs' =>
                have h1 : sizeOf (kv :: kvs') ≤ N := by
                  have : sizeOf (Json.obj (kv :: kvs')) = 1 + sizeOf (kv :: kvs') := by simp
                  omega
                have h2 := ihm (kv :: kvs') h1
                rw [show jcost (.obj (kv :: kvs')) = 1 + jcostMembers (kv :: kvs') from rfl,
                  show jdumpL (.obj (kv :: kvs')) =
                    Char.ofNat 123 :: (jdumpMembers (kv :: kvs') ++ [Char.ofNat 125]) from rfl]
                rw [List.length_cons, List.length_append]
                simp only [List.length_singleton]
                omega
        | null => simp [jcost, jdumpL]
        | bool b => cases b <;> simp [jcost, jdumpL]
      · cases ys with
        | nil => simp [jcostElems, jdumpItems]
        | cons x xs =>
            have hx : sizeOf x ≤ N := by
              have : sizeOf (x :: xs) = 1 + sizeOf x + sizeOf xs := by simp
              have := json_sizeOf_pos x
              omega
            cases xs with
            | nil =>
                have h2 := ihj x hx
                rw [show jcostElems [x] = 1 + jcost x from rfl,
                  show jdumpItems [x] = jdumpL x from rfl]
                omega
            | cons y t =>
                have h1 : sizeOf (y :: t) ≤ N := by
                  have : sizeOf (x :: y :: t) = 1 + sizeOf x + sizeOf (y :: t) := by simp
                  have := json_sizeOf_pos x
                  omega
                have h2 := ihj x hx
                have h3 := ihe (y :: t) h1
                rw [show jcostElems (x :: y :: t) = 1 + jcost x + jcostElems (y :: t) from rfl,
                  show jdumpItems (x :: y :: t) =
                    jdumpL x ++ (',' :: ' ' :: jdumpItems (y :: t)) from rfl]
                rw [List.length_append, List.length_cons, List.length_cons]
                omega
      · cases ps with
        | nil => simp [jcostMembers, jdumpMembers]
        | cons kv kvs =>
            obtain ⟨k, v⟩ := kv
            have hv : sizeOf v ≤ N := by
              have h4 : sizeOf ((k, v) :: kvs) = 1 + (1 + sizeOf k + sizeOf v) + sizeOf kvs := by
                simp
              omega
            cases kvs with
            | nil =>
                have h2 := ihj v hv
                have h5 : (jdumpMembers [(k, v)]).length =
                    (strRepr k).length + (2 + (jdumpL v).length) := by
                  rw [show jdumpMembers [(k, v)] =
                    strRepr k ++ ':' :: ' ' :: jdumpL v from rfl]
                  rw [List.length_append, List.length_cons, List.length_cons]
                  omega
                rw [show jcostMembers [(k, v)] = 1 + jcost (k, v).2 from rfl, h5]
                dsimp only
                omega
            | cons y t =>
                have h1 : sizeOf (y :: t) ≤ N := by
                  have h4 : sizeOf ((k, v) :: y :: t) =
                      1 + (1 + sizeOf k + sizeOf v) + sizeOf (y :: t) := by simp
                  omega
                have h2 := ihj v hv
                have h3 := ihm (y :: t) h1
                have h5 : (jdumpMembers ((k, v) :: y :: t)).length =
                    (strRepr k).length + (2 + ((jdumpL v).length +
                      (2 + (jdumpMembers (y :: t)).length))) := by
                  rw [show jdumpMembers ((k, v) :: y :: t) =
                    strRepr k ++ ':' :: ' ' :: jdumpL v ++
                      ',' :: ' ' :: jdumpMembers (y :: t) from rfl]
                  simp [List.length_append]
                  omega
                rw [show jcostMembers ((k, v) :: y :: t) =
                  1 + jcost (k, v).2 + jcostMembers (y :: t) from rfl, h5]
                dsimp only
                omega

theorem jcost_le_length (j : Json) : jcost j ≤ (jdumpL j).length :=
  (jcost_le_length_aux (sizeOf j)).1 j le_rfl

/-- `json.loads` is a left inverse of `json.dumps` (exact-decimal model). -/
theorem loadsL_jdumpL (j : Json) : loadsL (jdumpL j) = some j := by
  rw [loadsL]
  obtain ⟨c, t, hct, hws, -, -, -, -⟩ := jdumpL_head j
  rw [skipWs_eq_self _ (Or.inr ⟨c, t, hct, hws⟩)]
  have hp : parseVal (2 * (jdumpL j).length + 4) (jdumpL j ++ []) = some (j, []) :=
    parseVal_jdumpL j _ [] (le_trans (jcost_le_length j) (by omega)) (Or.inl rfl)
  rw [List.append_nil] at hp
  rw [hp]
  rfl

/-- `json.loads` is a left inverse of `json.dumps`, on `String`. -/
theorem loads_jdump (j : Json) : loads (jdump j) = some j := loadsL_jdumpL j

theorem pySliceNorm (n : Nat) (x : Nat) (hx : x ≤ n) :
    (if (x : Int) < 0 then max 0 ((n : Int) + x) else min (x : Int) (n : Int)).toNat = x := by
  rw [if_neg (by omega)]
  omega

/-- A Python slice with in-range non-negative bounds is `take`-then-`drop`. -/
theorem pySlice_natNat (cs : List Char) (a b : Nat) (ha : a ≤ cs.length)
    (hb : b ≤ cs.length) :
    pySlice cs (a : Int) (b : Int) = (cs.take b).drop a := by
  rw [pySlice]
  dsimp only
  rw [pySliceNorm cs.length b hb, pySliceNorm cs.length a ha]

/-- Slicing between the end of the marker and the located close recovers
the enclosed segment. -/
theorem pySlice_extract (P M W1 D W2 X : List Char) (hM : M.length = 7) :
    pySlice (P ++ (M ++ (W1 ++ (D ++ (W2 ++ X)))))
      (((P.length + 7 : Nat) : Int))
      (((P.length + 7 + W1.length + D.length + W2.length : Nat) : Int)) =
      W1 ++ (D ++ W2) := by
  have hb : P.length + 7 + W1.length + D.length + W2.length ≤
      (P ++ (M ++ (W1 ++ (D ++ (W2 ++ X))))).length := by
    simp only [List.length_append, hM]
    omega
  have ha : P.length + 7 ≤ (P ++ (M ++ (W1 ++ (D ++ (W2 ++ X))))).length := by omega
  rw [pySlice_natNat _ _ _ ha hb]
  have h1 : P ++ (M ++ (W1 ++ (D ++ (W2 ++ X)))) =
      (P ++ (M ++ (W1 ++ (D ++ W2)))) ++ X := by
    simp [List.append_assoc]
  have h2 : (P ++ (M ++ (W1 ++ (D ++ W2)))).length =
      P.length + 7 + W1.length + D.length + W2.length := by
    simp only [List.length_append, hM]
    omega
  rw [h1, ← h2, List.take_left]
  have h3 : P ++ (M ++ (W1 ++ (D ++ W2))) = (P ++ M) ++ (W1 ++ (D ++ W2)) := by
    simp [List.append_assoc]
  have h4 : (P ++ M).length = P.length + 7 := by simp [hM]
  rw [h3, ← h4, List.drop_left]

/-- A list with non-whitespace first and last characters strips to itself. -/
theorem pyStrip_sandwich (a b : Char) (M : List Char)
    (ha : pyWs a = false) (hb : pyWs b = false) :
    pyStrip (a :: (M ++ [b])) = a :: (M ++ [b]) := by
  rw [pyStrip]
  rw [List.dropWhile_cons, if_neg (by simp [ha])]
  have h1 : (a :: (M ++ [b])).reverse = b :: (M.reverse ++ [a]) := by simp
  rw [h1]
  rw [List.dropWhile_cons, if_neg (by simp [hb])]
  rw [← h1, List.reverse_reverse]

/-- Stripping a segment padded by whitespace on both sides yields the
segment, when the segment itself has non-whitespace ends. -/
theorem pyStrip_ws_sandwich (W1 W2 M : List Char) (a b : Char)
    (h1 : ∀ c ∈ W1, pyWs c = true) (h2 : ∀ c ∈ W2, pyWs c = true)
    (ha : pyWs a = false) (hb : pyWs b = false) :
    pyStrip (W1 ++ ((a :: (M ++ [b])) ++ W2)) = a :: (M ++ [b]) := by
  rw [pyStrip]
  have hw1 : List.dropWhile pyWs W1 = [] := List.dropWhile_eq_nil_iff.mpr h1
  rw [List.dropWhile_append, hw1]
  simp only [List.isEmpty_nil, if_true]
  rw [List.cons_append, List.dropWhile_cons, if_neg (by simp [ha])]
  have hrev : (a :: ((M ++ [b]) ++ W2)).reverse = W2.reverse ++ (b :: (M.reverse ++ [a])) := by
    simp
  rw [hrev]
  have hw2 : List.dropWhile pyWs W2.reverse = [] :=
    List.dropWhile_eq_nil_iff.mpr (fun c hc => h2 c (List.mem_reverse.mp hc))
  rw [List.dropWhile_append, hw2]
  simp only [List.isEmpty_nil, if_true]
  rw [List.dropWhile_cons, if_neg (by simp [hb])]
  simp

/-- A serialized object strips to itself (it starts with a brace and ends
with a brace). -/
theorem pyStrip_jdump_obj (kvs : List (String × Json)) :
    pyStrip (jdumpL (.obj kvs)) = jdumpL (.obj kvs) := by
  rw [show jdumpL (.obj kvs) =
    Char.ofNat 123 :: (jdumpMembers kvs ++ [Char.ofNat 125]) from rfl]
  exact pyStrip_sandwich _ _ _ (by decide) (by decide)

/-- C3 (amended): the extractor recovers a serialized JSON object, both
bare and wrapped in a single well-placed fence with whitespace padding
and surrounding text — provided the first occurrence of the marker and
the following close delimit the serialized object itself, hypotheses
that fail when the serialization contains a backtick fence of its own
(see the counterexample). -/
theorem extract_fence_roundtrip (kvs : List (String × Json))
    (pre ws1 ws2 post raw : List Char)
    (hshape : pyStrip raw = pre ++ (jsonFenceMarker ++ (ws1 ++ (jdumpL (.obj kvs) ++
      (ws2 ++ (jsonFenceClose ++ post))))))
    (hdirect : loadsL (pyStrip raw) = none)
    (hfirst : pyFind (pyStrip raw) jsonFenceMarker = (pre.length : Int))
    (hclose : pyFindFrom (pyStrip raw) jsonFenceClose (pre.length + 7) =
      ((pre.length + 7 + ws1.length + (jdumpL (.obj kvs)).length + ws2.length : Nat) : Int))
    (hw1 : ∀ c ∈ ws1, pyWs c = true) (hw2 : ∀ c ∈ ws2, pyWs c = true) :
    extractL (jdumpL (.obj kvs)) = .ok (.obj kvs) ∧ extractL raw = .ok (.obj kvs) := by
  constructor
  · rw [extractL]
    simp only [pyStrip_jdump_obj, loadsL_jdumpL]
  · rw [extractL]
    simp only
    rw [hdirect]
    have hcont : pyContains (pyStrip raw) jsonFenceMarker = true := by
      rw [pyContains, hfirst]
      exact decide_eq_true (Int.natCast_nonneg _)
    rw [if_pos hcont, hfirst]
    rw [show ((pre.length : Int) + 7).toNat = pre.length + 7 from by omega]
    rw [hclose]
    rw [show ((pre.length : Int) + 7) = ((pre.length + 7 : Nat) : Int) from by push_cast; ring]
    rw [hshape]
    rw [pySlice_extract pre jsonFenceMarker ws1 (jdumpL (.obj kvs)) ws2
      (jsonFenceClose ++ post) (by decide)]
    rw [show jdumpL (.obj kvs) =
      Char.ofNat 123 :: (jdumpMembers kvs ++ [Char.ofNat 125]) from rfl]
    rw [pyStrip_ws_sandwich ws1 ws2 (jdumpMembers kvs) _ _ hw1 hw2 (by decide) (by decide)]
    rw [show Char.ofNat 123 :: (jdumpMembers kvs ++ [Char.ofNat 125]) =
      jdumpL (.obj kvs) from rfl]
    rw [loadsL_jdumpL]

/-- C3 counterexample: a fenced reply whose serialized object itself
contains a backtick fence inside a string value is not recovered — the
re-slice stops at the inner fence and the second parse raises
`json.JSONDecodeError`, instead of recovering the object. -/
theorem extract_fence_in_payload_counterexample :
    extract (String.mk ("```json\n".data ++
        (jdumpL (.obj [("a", .str "```")]) ++ "\n```".data))) =
      .error (.innerDecode "\x7b\"a\": \"") := by
  decide

theorem extract_fence_roundtrip_witness :
    extractL (jdumpL (.obj [("a", .num 1 0)])) = .ok (.obj [("a", .num 1 0)]) ∧
    extractL "```json\n\x7b\"a\": 1\x7d\n```".data = .ok (.obj [("a", .num 1 0)]) :=
  extract_fence_roundtrip [("a", .num 1 0)] [] ['\n'] ['\n'] []
    "```json\n\x7b\"a\": 1\x7d\n```".data
    (by decide) (by decide) (by decide) (by decide) (by decide) (by decide)
